import Mathlib

/-!
Verification of the stuff-time hierarchical period-aggregation engine.

This file gives a shallow embedding of the aggregation code of the
stuff-time repository (mainly `internal/task/executor.go`,
`internal/storage/report.go`, `internal/scheduler/timer.go` (SQLite storage),
`internal/storage/report_parser.go` and `internal/cmd/validate.go`) and
settles the claims of the specification against it.

Modelling conventions:
* Go strings are modelled as `List Char` (named `Str`); Go `len` on a string
  counts bytes, modelled by `byteLen` (UTF-8 sizes), while list length is
  used where Go iterates runes.
* `time.Time` is modelled as seconds since the Unix epoch (`Int := Int`);
  `time.Date` normalisation and `AddDate` are implemented with the standard
  civil-calendar conversion, `Format` by explicit digit rendering.
* External summarizer/analyzer calls are abstract function parameters; the
  run keeps a counter of how many external calls it made.
* Go map iteration order (used when turning the deduplicated
  screenshot-id set into a slice) is modelled by an explicit reordering
  function `order` passed to the run; any actual Go iteration enumerates
  exactly the keys of the map, i.e. a permutation of the insertion-ordered
  key list.
* stateful code is modelled by explicit `Store` passing; every function
  returns the effects it performed (records saved, report files written or
  deleted, external calls made).
-/

/-- Go string, modelled as a list of characters. -/
abbrev Str := List Char

/-- Literal helper: a Lean string literal viewed as a `Str`. -/
def lit (s : String) : Str := s.data

/-- UTF-8 byte length of a string, the meaning of Go `len(s)`. -/
def byteLen (s : Str) : Nat := (s.map Char.utf8Size).sum

/-- Go `strings.HasPrefix`. -/
def startsWith (s pre : Str) : Bool := List.isPrefixOf pre s

/-- Helper for `containsStr`: does `sub` occur in `s` (with `sub ≠ []`)? -/
def containsAux (s sub : Str) : Bool :=
  match s with
  | [] => false
  | _ :: xs => List.isPrefixOf sub s || containsAux xs sub

/-- Go `strings.Contains`. -/
def containsStr (s sub : Str) : Bool :=
  if sub = [] then true else containsAux s sub

/-- Left-to-right non-overlapping replacement scan; `fuel` bounds the
number of consumed characters (structural recursion so that concrete
inputs evaluate inside the kernel; `fuel = s.length + 1` always
suffices for a nonempty pattern). -/
def replaceAllAux (fuel : Nat) (s pat rep : Str) : Str :=
  match fuel, s with
  | 0, s => s
  | _ + 1, [] => []
  | fuel + 1, x :: xs =>
    if List.isPrefixOf pat (x :: xs) then
      rep ++ replaceAllAux fuel ((x :: xs).drop pat.length) pat rep
    else
      x :: replaceAllAux fuel xs pat rep

/-- Go `strings.ReplaceAll s pat rep` for a nonempty pattern
(all patterns in the source are nonempty literals). -/
def replaceAll (s pat rep : Str) : Str :=
  if pat = [] then s else replaceAllAux (s.length + 1) s pat rep

/-- Go whitespace test used by `strings.TrimSpace` (ASCII part). -/
def isSpaceChar (c : Char) : Bool :=
  c = ' ' || c = '\t' || c = '\n' || c = '\r' || c = '\x0b' || c = '\x0c'

/-- Go `strings.TrimSpace`. -/
def trimSpace (s : Str) : Str :=
  (s.dropWhile isSpaceChar).reverse.dropWhile isSpaceChar |>.reverse

/-- Go `strings.ToLower` (ASCII case folding; CJK characters are fixed). -/
def toLowerStr (s : Str) : Str := s.map Char.toLower

/-- Go `strings.Split s sep` for a single-character separator. -/
def splitOnChar (c : Char) : Str → List Str
  | [] => [[]]
  | x :: xs =>
    if x = c then [] :: splitOnChar c xs
    else
      match splitOnChar c xs with
      | [] => [[x]]
      | y :: ys => (x :: y) :: ys

/-- Go `strings.Join l sep` for a single-character separator. -/
def joinChar (c : Char) (l : List Str) : Str :=
  match l with
  | [] => []
  | [x] => x
  | x :: xs => x ++ c :: joinChar c xs

/-- Go `strings.Join l sep` for a string separator. -/
def joinStr (sep : Str) (l : List Str) : Str :=
  match l with
  | [] => []
  | [x] => x
  | x :: xs => x ++ sep ++ joinStr sep xs

/-- Index (in characters) of the first occurrence of `sub` in `s`,
modelling Go `strings.Index` (byte offsets and char offsets are
order-isomorphic, which is all the source uses them for). -/
def indexOfStr (s sub : Str) : Option Nat :=
  match s with
  | [] => if sub = [] then some 0 else none
  | _ :: xs =>
    if List.isPrefixOf sub s then some 0
    else (indexOfStr xs sub).map (· + 1)

/-- Take the longest prefix of `s` whose UTF-8 size is at most `n` bytes,
modelling the Go byte slice `s[:n]` (a partial trailing rune carries no
information for the substring searches performed on it). -/
def takeBytes (n : Nat) : Str → Str
  | [] => []
  | c :: cs =>
    if c.utf8Size ≤ n then c :: takeBytes (n - c.utf8Size) cs
    else []

/-- Decimal digit rendering with a structural fuel
(`fuel = n + 1` always suffices). -/
def natDigitsAux : Nat → Nat → Str
  | 0, _ => []
  | fuel + 1, n =>
    if n < 10 then [Char.ofNat (48 + n)]
    else natDigitsAux fuel (n / 10) ++ [Char.ofNat (48 + n % 10)]

/-- Decimal digits of a natural number. -/
def natDigits (n : Nat) : Str := natDigitsAux (n + 1) n

/-- Go `%d` rendering of an integer. -/
def intToStr (n : Int) : Str :=
  if n < 0 then '-' :: natDigits (-n).toNat else natDigits n.toNat

/-- Zero-padded two-digit rendering (Go layouts `01`, `02`, `15`, `04`, `05`). -/
def pad2 (n : Int) : Str :=
  if 0 ≤ n ∧ n < 10 then '0' :: natDigits n.toNat else intToStr n

/-- Zero-padded four-digit rendering (Go layout `2006`). -/
def pad4 (n : Int) : Str :=
  if 0 ≤ n ∧ n < 10 then '0' :: '0' :: '0' :: natDigits n.toNat
  else if 0 ≤ n ∧ n < 100 then '0' :: '0' :: natDigits n.toNat
  else if 0 ≤ n ∧ n < 1000 then '0' :: natDigits n.toNat
  else intToStr n

/-! ## Calendar model (`time.Time`) -/

/- A `time.Time` instant is modelled as its count of seconds since the
Unix epoch, a plain `Int` (all times the source constructs are whole
seconds in a single location). -/

/-- Days from civil date (Gregorian, proleptic), for `m ∈ [1,12]`. -/
def daysFromCivil (y m d : Int) : Int :=
  let y' := if m ≤ 2 then y - 1 else y
  let era := y'.fdiv 400
  let yoe := y' - era * 400
  let mp := (m + 9) % 12
  let doy := (153 * mp + 2).fdiv 5 + d - 1
  let doe := yoe * 365 + yoe.fdiv 4 - yoe.fdiv 100 + doy
  era * 146097 + doe - 719468

/-- Civil date from days since the epoch. -/
def civilFromDays (z0 : Int) : Int × Int × Int :=
  let z := z0 + 719468
  let era := z.fdiv 146097
  let doe := z - era * 146097
  let yoe := (doe - doe.fdiv 1460 + doe.fdiv 36524 - doe.fdiv 146096).fdiv 365
  let y := yoe + era * 400
  let doy := doe - (365 * yoe + yoe.fdiv 4 - yoe.fdiv 100)
  let mp := (5 * doy + 2).fdiv 153
  let d := doy - (153 * mp + 2).fdiv 5 + 1
  let m := mp + (if mp < 10 then 3 else -9)
  (y + (if m ≤ 2 then 1 else 0), m, d)

/-- Go `time.Date(y, mo, d, h, mi, s, 0, loc)`: fields are normalised by
carrying overflow upward (month into year first, then everything is
additive in seconds). -/
def mkDate (y mo d h mi s : Int) : Int :=
  let mz := mo - 1
  let yy := y + mz.fdiv 12
  let mm := mz.emod 12 + 1
  86400 * (daysFromCivil yy mm 1 + (d - 1)) + 3600 * h + 60 * mi + s

/-- Epoch-day number of a time. -/
def epochDay (t : Int) : Int := t.fdiv 86400

/-- Go `t.Year()`. -/
def yearOf (t : Int) : Int := (civilFromDays (epochDay t)).1

/-- Go `t.Month()` as an integer 1..12. -/
def monthOf (t : Int) : Int := (civilFromDays (epochDay t)).2.1

/-- Go `t.Day()`. -/
def dayOf (t : Int) : Int := (civilFromDays (epochDay t)).2.2

/-- Go `t.Hour()`. -/
def hourOf (t : Int) : Int := (t.emod 86400).fdiv 3600

/-- Go `t.Minute()`. -/
def minuteOf (t : Int) : Int := (t.emod 3600).fdiv 60

/-- Go `t.Second()`. -/
def secOf (t : Int) : Int := t.emod 60

/-- Go `t.Weekday()`: Sunday = 0 (1970-01-01 was a Thursday). -/
def weekdayOf (t : Int) : Int := (epochDay t + 4).emod 7

/-- Go `t.AddDate(years, months, days)`. -/
def addDate (t : Int) (dy dm dd : Int) : Int :=
  mkDate (yearOf t + dy) (monthOf t + dm) (dayOf t + dd)
    (hourOf t) (minuteOf t) (secOf t)

/-- Go `t.Before(u)`. -/
def timeBefore (t u : Int) : Bool := t < u

/-- Go `t.After(u)`. -/
def timeAfter (t u : Int) : Bool := u < t

/-- Go layout `2006-01-02`. -/
def fmtDay (t : Int) : Str :=
  pad4 (yearOf t) ++ '-' :: pad2 (monthOf t) ++ '-' :: pad2 (dayOf t)

/-- Go layout `2006-01-02-15`. -/
def fmtHourKey (t : Int) : Str := fmtDay t ++ '-' :: pad2 (hourOf t)

/-- Go layout `2006-01-02-15-04`. -/
def fmtFifteenKey (t : Int) : Str := fmtHourKey t ++ '-' :: pad2 (minuteOf t)

/-- Go layout `2006-01`. -/
def fmtMonthKey (t : Int) : Str := pad4 (yearOf t) ++ '-' :: pad2 (monthOf t)

/-- Go layout `2006`. -/
def fmtYearKey (t : Int) : Str := pad4 (yearOf t)

/-- The Monday-aligned start of the week of `t`
(the `weekday == 0 → 7` adjustment of the source). -/
def mondayOf (t : Int) : Int :=
  let wd := if weekdayOf t = 0 then 7 else weekdayOf t
  addDate (mkDate (yearOf t) (monthOf t) (dayOf t) 0 0 0) 0 0 (-(wd - 1))

/-- Quarter number of a time (Q1 = Jan-Mar, ...). -/
def quarterOf (t : Int) : Int := (monthOf t - 1).fdiv 3 + 1

/-- Go key `fmt.Sprintf("%d-Q%d", year, quarter)`. -/
def fmtQuarterKey (t : Int) : Str :=
  intToStr (yearOf t) ++ '-' :: 'Q' :: intToStr (quarterOf t)

/-! ## Data model -/

/-- `storage.PeriodSummary`. -/
structure PeriodSummaryR where
  periodKey : Str
  periodType : Str
  startTime : Int
  endTime : Int
  screenshots : Str
  summary : Str
  analysis : Str
  deriving Repr, DecidableEq

/-- `storage.ScreenshotRecord` (fields the aggregation engine reads). -/
structure ScreenshotR where
  id : Str
  timestamp : Int
  analysis : Str
  hourKey : Str
  deriving Repr, DecidableEq

/-- `storage.HourSummary`. -/
structure HourSummaryR where
  hourKey : Str
  dateT : Int
  hourN : Int
  screenshots : Str
  summary : Str
  deriving Repr, DecidableEq

/-- The placeholder sentinel `__NO_WORK_ACTIVITY_PLACEHOLDER__`. -/
def placeholderLit : Str := lit "__NO_WORK_ACTIVITY_PLACEHOLDER__"

/-! ## Content validity classifiers (`executor.go`) -/

/-- The `invalidPatterns` list of `isInvalidSummary`. -/
def invalidPatterns : List Str :=
  [lit "该时间段内没有检测到有效工作活动（所有截图均为桌面或锁屏状态）",
   lit "该时间段内没有检测到有效工作活动",
   lit "没有检测到有效工作活动（所有截图均为桌面或锁屏状态）",
   lit "没有检测到有效工作活动",
   lit "没有有效工作活动",
   lit "未检测到新的有效工作活动",
   lit "未检测到有效工作活动"]

/-- `isInvalidSummary` (executor.go:1116): a summary is invalid when empty,
when it is the placeholder sentinel, or when it contains a
no-work-activity phrase and fewer than 50 bytes remain after stripping the
phrase, punctuation and markdown. -/
def isInvalidSummary (summary : Str) : Bool :=
  if summary = [] then true
  else if summary = placeholderLit then true
  else
    let summaryLower := toLowerStr summary
    invalidPatterns.any fun pattern =>
      if containsStr summaryLower (toLowerStr pattern) then
        let normalized := toLowerStr summary
        let normalized := replaceAll normalized (lit "\n") (lit " ")
        let normalized := replaceAll normalized (lit "\r") (lit " ")
        let normalized := replaceAll normalized (lit "  ") (lit " ")
        let normalized := replaceAll normalized (lit "【") []
        let normalized := replaceAll normalized (lit "】") []
        let normalized := replaceAll normalized (lit "*") []
        let normalized := replaceAll normalized (lit "#") []
        let normalized := trimSpace normalized
        let remaining := replaceAll normalized (toLowerStr pattern) []
        let remaining := replaceAll remaining (lit "（") []
        let remaining := replaceAll remaining (lit "）") []
        let remaining := replaceAll remaining (lit "(") []
        let remaining := replaceAll remaining (lit ")") []
        let remaining := replaceAll remaining (lit "。") []
        let remaining := replaceAll remaining (lit ".") []
        let remaining := replaceAll remaining (lit "，") []
        let remaining := replaceAll remaining (lit ",") []
        let remaining := replaceAll remaining (lit " ") []
        let remaining := trimSpace remaining
        decide (byteLen remaining < 50)
      else false

/-- The `noWorkIndicators` list of `hasValidWorkActivity`. -/
def noWorkIndicators : List Str :=
  [lit "没有检测到有效工作活动",
   lit "没有有效工作活动",
   lit "未检测到新的有效工作活动",
   lit "未检测到有效工作活动",
   lit "no work activity",
   lit "没有检测到新的有效工作活动"]

/-- The `desktopLockScreenIndicators` list of `hasValidWorkActivity`. -/
def desktopLockScreenIndicators : List Str :=
  [lit "桌面或锁屏状态",
   lit "桌面或锁屏",
   lit "均为桌面或锁屏",
   lit "所有截图内容均为桌面或锁屏状态",
   lit "desktop or lock screen",
   lit "lock screen",
   lit "desktop"]

/-- The `workIndicators` vocabulary of `hasValidWorkActivity`. -/
def workIndicators : List Str :=
  [lit "代码", lit "开发", lit "编写", lit "调试", lit "测试", lit "部署",
   lit "提交", lit "修复", lit "项目", lit "任务", lit "工作", lit "完成",
   lit "实现", lit "优化", lit "设计",
   lit "code", lit "develop", lit "write", lit "debug", lit "test",
   lit "deploy", lit "commit", lit "fix", lit "project", lit "task",
   lit "work", lit "complete", lit "implement", lit "optimize", lit "design"]

/-- `hasValidWorkActivity` (executor.go:1262). -/
def hasValidWorkActivity (summary : Str) : Bool :=
  if summary = [] then false
  else
    let summaryLower := toLowerStr summary
    let summaryTrimmed := trimSpace summary
    let failFirstCheck := noWorkIndicators.any fun indicator =>
      if containsStr summaryLower (toLowerStr indicator) then
        let normalized := toLowerStr summaryTrimmed
        let normalized := replaceAll normalized (lit "\n") (lit " ")
        let normalized := replaceAll normalized (lit "\r") (lit " ")
        let normalized := replaceAll normalized (lit "  ") (lit " ")
        let normalized := replaceAll normalized (lit "【") []
        let normalized := replaceAll normalized (lit "】") []
        let normalized := replaceAll normalized (lit "*") []
        let normalized := replaceAll normalized (lit "#") []
        let normalized := trimSpace normalized
        if byteLen normalized < 200 then true
        else if desktopLockScreenIndicators.any fun di =>
            containsStr summaryLower (toLowerStr di) then true
        else
          let remaining := noWorkIndicators.foldl
            (fun r ind => replaceAll r (toLowerStr ind) []) normalized
          let remaining := desktopLockScreenIndicators.foldl
            (fun r ind => replaceAll r (toLowerStr ind) []) remaining
          let remaining := replaceAll remaining (lit "。") []
          let remaining := replaceAll remaining (lit ".") []
          let remaining := replaceAll remaining (lit "，") []
          let remaining := replaceAll remaining (lit ",") []
          let remaining := replaceAll remaining (lit "（") []
          let remaining := replaceAll remaining (lit "）") []
          let remaining := replaceAll remaining (lit "(") []
          let remaining := replaceAll remaining (lit ")") []
          let remaining := replaceAll remaining (lit " ") []
          let remaining := trimSpace remaining
          decide (byteLen remaining < 50)
      else false
    if failFirstCheck then false
    else
      let hasDesktopLockScreen := desktopLockScreenIndicators.any fun di =>
        containsStr summaryLower (toLowerStr di)
      if hasDesktopLockScreen then
        let hasWorkContent := workIndicators.any fun wi =>
          containsStr summaryLower (toLowerStr wi)
        if !hasWorkContent && decide (byteLen summaryTrimmed < 300) then false
        else true
      else true

/-- One step of the line filter of `cleanSummaryIfNoWorkActivity`
(executor.go:1214-1243): state is (inEfficiencySection,
inImprovementSection, collected lines). -/
def cleanLineStep (acc : Bool × Bool × List Str) (line : Str) :
    Bool × Bool × List Str :=
  let (inEff, inImp, collected) := acc
  let lineTrimmed := trimSpace line
  let lineLower := toLowerStr lineTrimmed
  if containsStr lineLower (lit "【效率分析】") ||
     containsStr lineLower (lit "效率分析") then
    (true, inImp, collected)
  else if containsStr lineLower (lit "【改进建议】") ||
          containsStr lineLower (lit "改进建议") then
    (inEff, true, collected)
  else
    -- the section-exit branch of the source only fires when both flags are
    -- already false and resets them to false
    let flags :=
      if startsWith lineTrimmed (lit "【") && !inEff && !inImp then
        (false, false)
      else (inEff, inImp)
    if flags.1 || flags.2 then (flags.1, flags.2, collected)
    else (flags.1, flags.2, collected ++ [line])

/-- `cleanSummaryIfNoWorkActivity` (executor.go:1177). -/
def cleanSummaryIfNoWorkActivity (summary : Str) : Str :=
  if summary = [] then summary
  else if !hasValidWorkActivity summary then []
  else
    let summaryLower := toLowerStr summary
    let indicators :=
      [lit "没有检测到有效工作活动",
       lit "没有有效工作活动",
       lit "未检测到新的有效工作活动",
       lit "未检测到有效工作活动"]
    let hasNoWorkIndicator := indicators.any fun indicator =>
      containsStr summaryLower (toLowerStr indicator)
    if hasNoWorkIndicator then
      let ls := splitOnChar '\n' summary
      let (_, _, cleanedLines) := ls.foldl cleanLineStep (false, false, [])
      let cleanedSummary := trimSpace (joinChar '\n' cleanedLines)
      if byteLen cleanedSummary < 100 then []
      else cleanedSummary
    else summary

/-- The `strictPatterns` list of `isDesktopOrLockScreenAnalysis`. -/
def strictPatterns : List Str :=
  [lit "锁屏界面", lit "锁屏状态", lit "处于锁屏", lit "电脑桌面",
   lit "桌面界面", lit "桌面状态", lit "系统登录", lit "系统锁屏",
   lit "等待解锁", lit "等待输入密码", lit "没有打开任何应用程序",
   lit "没有打开任何应用", lit "lock screen", lit "lockscreen",
   lit "desktop"]

/-- `isDesktopOrLockScreenAnalysis` (executor.go:2485). -/
def isDesktopOrLockScreenAnalysis (analysis : Str) : Bool :=
  if analysis = [] then true
  else
    let lowerAnalysis := toLowerStr analysis
    let summaryPart :=
      match indexOfStr lowerAnalysis (lit "【摘要】") with
      | some summaryStart =>
        match indexOfStr lowerAnalysis (lit "【详细论述】") with
        | some summaryEnd =>
          if summaryStart < summaryEnd then
            (lowerAnalysis.drop summaryStart).take (summaryEnd - summaryStart)
          else lowerAnalysis.drop summaryStart
        | none => lowerAnalysis.drop summaryStart
      | none =>
        if 200 < byteLen lowerAnalysis then takeBytes 200 lowerAnalysis
        else lowerAnalysis
    let shortStateCheck :=
      decide (byteLen summaryPart < 100) &&
        (containsStr summaryPart (lit "锁屏") ||
         containsStr summaryPart (lit "桌面"))
    if strictPatterns.any fun p => containsStr summaryPart p then true
    else if containsStr summaryPart (lit "登录界面") &&
            !containsStr summaryPart (lit "游戏") &&
            !containsStr summaryPart (lit "应用") &&
            !containsStr summaryPart (lit "软件") then true
    else if containsStr summaryPart (lit "输入密码") then
      if containsStr summaryPart (lit "解锁") ||
         containsStr summaryPart (lit "锁屏") ||
         containsStr summaryPart (lit "系统") then true
      else if containsStr summaryPart (lit "游戏") ||
              containsStr summaryPart (lit "应用") then false
      else shortStateCheck
    else shortStateCheck

/-- `hasValidContent` (executor.go:2176): the persist-or-placeholder gate. -/
def hasValidContent (summary : PeriodSummaryR) : Bool :=
  if summary.summary = placeholderLit then false
  else
    let summaryValid :=
      if summary.summary ≠ [] then
        let summaryText := trimSpace summary.summary
        let normalizedText := toLowerStr summaryText
        let normalizedText := replaceAll normalizedText (lit "\n") (lit " ")
        let normalizedText := replaceAll normalizedText (lit "\r") (lit " ")
        let normalizedText := replaceAll normalizedText (lit "  ") (lit " ")
        let normalizedText := trimSpace normalizedText
        let noActivityPatterns :=
          [lit "没有检测到有效工作活动",
           lit "没有有效工作活动",
           lit "no work activity",
           lit "no work activity in segment"]
        let isOnlyNoActivity := noActivityPatterns.any fun pattern =>
          let patternLower := toLowerStr pattern
          if containsStr normalizedText patternLower then
            let remaining := replaceAll normalizedText patternLower []
            let remaining := replaceAll remaining (lit "（") []
            let remaining := replaceAll remaining (lit "）") []
            let remaining := replaceAll remaining (lit "(") []
            let remaining := replaceAll remaining (lit ")") []
            let remaining := replaceAll remaining (lit "。") []
            let remaining := replaceAll remaining (lit ".") []
            let remaining := replaceAll remaining (lit "，") []
            let remaining := replaceAll remaining (lit ",") []
            let remaining := replaceAll remaining (lit " ") []
            let remaining := trimSpace remaining
            decide (byteLen remaining < 50)
          else false
        !isOnlyNoActivity
      else false
    let analysisValid :=
      if summary.analysis ≠ [] then
        let analysisText := trimSpace summary.analysis
        if startsWith analysisText (lit "分析失败") ||
           startsWith analysisText (lit "分析失败:") ||
           containsStr analysisText (lit "API call failed") ||
           containsStr analysisText (lit "failed to") then false
        else true
      else false
    summaryValid || analysisValid

/-- `shouldGenerateAnalysis` (executor.go:1104): only week and longer
periods carry behavioral analysis. -/
def shouldGenerateAnalysis (periodType : Str) : Bool :=
  periodType = lit "week" || periodType = lit "month" ||
  periodType = lit "quarter" || periodType = lit "year"

/-- `getLowerLevelPeriodType` (executor.go:1087): the fixed hierarchy map;
an unknown type gets the map-miss default `""`. -/
def getLowerLevelPeriodType (periodType : Str) : Str :=
  if periodType = lit "year" then lit "quarter"
  else if periodType = lit "quarter" then lit "month"
  else if periodType = lit "month" then lit "week"
  else if periodType = lit "week" then lit "day"
  else if periodType = lit "day" then lit "work-segment"
  else if periodType = lit "work-segment" then lit "hour"
  else if periodType = lit "hour" then lit "fifteenmin"
  else []

/-! ## Text merger (executor.go:2586-2751)

The external pairwise-merge operation
(`analyzer.GenerateRollingSummaryWithContext`) is an abstract parameter
`m : Str → Str → Option Str` (`none` = the call returned an error); every
function also returns the number of external merge calls it performed. -/

/-- The linear rolling loop of `processRollingSummaryWithTimeContext`
(executor.go:2613-2627): the running result is seeded with the first
fragment and each subsequent fragment is merged in by one external call;
a failed call aborts the whole rolling reduction with an error. -/
def linearRoll (m : Str → Str → Option Str) : Str → List Str →
    Option Str × Nat
  | prev, [] => (some prev, 0)
  | prev, x :: rest =>
    match m prev x with
    | none => (none, 1)
    | some rolled =>
      let (res, c) := linearRoll m rolled rest
      (res, c + 1)

/-- One level of tree aggregation (the pair loop of
`processTreeAggregationWithTimeContext`, executor.go:2690-2727):
fragments are paired `(2i, 2i+1)`; a failed pairwise merge degrades to
concatenation of the two fragments with `"\n\n"`; an odd trailing
fragment carries to the next level unchanged.  The deterministic
`pairIndex/2` result placement of the source makes the parallel loop
equivalent to this sequential pairing. -/
def treeLevel (m : Str → Str → Option Str) : List Str → List Str × Nat
  | [] => ([], 0)
  | [a] => ([a], 0)
  | a :: b :: rest =>
    let combined := (m a b).getD (a ++ lit "\n\n" ++ b)
    let (l, c) := treeLevel m rest
    (combined :: l, c + 1)

/-- The level loop of `processTreeAggregationWithTimeContext`
(`for len(currentLevel) > 1`), with a structural fuel: each level
strictly shrinks the list, so `fuel = l.length` iterations always
suffice. -/
def treeLoopAux (m : Str → Str → Option Str) : Nat → List Str →
    List Str × Nat
  | 0, l => (l, 0)
  | fuel + 1, l =>
    if l.length ≤ 1 then (l, 0)
    else
      let p := treeLevel m l
      let q := treeLoopAux m fuel p.1
      (q.1, p.2 + q.2)

/-- The level loop of `processTreeAggregationWithTimeContext`. -/
def treeLoop (m : Str → Str → Option Str) (l : List Str) :
    List Str × Nat :=
  treeLoopAux m l.length l

/-- `processTreeAggregationWithTimeContext` (executor.go:2645): level-wise
tree reduction; an empty result is an error, otherwise the single
remaining fragment is returned. -/
def processTreeAggregationWithTimeContext (m : Str → Str → Option Str)
    (summaries : List Str) : Option Str × Nat :=
  let (l, c) := treeLoop m summaries
  match l with
  | [] => (none, c)
  | x :: _ => (some x, c)

/-- `processRollingSummaryWithTimeContext` (executor.go:2586): dispatch
between error (0 fragments), identity (1 fragment), tree aggregation
(more than 20 fragments) and linear rolling (2..20 fragments). -/
def processRollingSummaryWithTimeContext (m : Str → Str → Option Str)
    (summaries : List Str) : Option Str × Nat :=
  if summaries = [] then (none, 0)
  else if summaries.length = 1 then (summaries.head?.getD [], 0)
  else if 20 < summaries.length then
    processTreeAggregationWithTimeContext m summaries
  else
    match summaries with
    | [] => (none, 0)
    | x :: rest => linearRoll m x rest

/-! ## Storage model

The executor runs against `storage.Storage`; the metadata (SQLite)
backend of `internal/scheduler/timer.go` is modelled here.  Report
artifacts are tracked as the set of period keys that currently have a
file; `contentFiles` models the parsed content-store files used by the
consistency manager. -/

/-- Insert into a list sorted by an `Int` key. -/
def insertSorted (f : α → Int) (x : α) : List α → List α
  | [] => [x]
  | y :: ys => if f x ≤ f y then x :: y :: ys else y :: insertSorted f x ys

/-- Sort by an `Int` key (`ORDER BY ... ASC`). -/
def sortByKey (f : α → Int) (l : List α) : List α :=
  l.foldr (insertSorted f) []

/-- The storage state. -/
structure Store where
  periodSummaries : List PeriodSummaryR
  screenshots : List ScreenshotR
  hourSummaries : List HourSummaryR
  reportFiles : List Str
  contentFiles : List PeriodSummaryR
  deriving Repr, DecidableEq

/-- `SQLiteStorage.QueryPeriodSummaries` (timer.go:527):
`WHERE period_type = ? AND start_time >= ? AND end_time <= ?
ORDER BY start_time ASC`. -/
def queryPeriodSummaries (st : Store) (periodType : Str) (s e : Int) :
    List PeriodSummaryR :=
  sortByKey (·.startTime)
    (st.periodSummaries.filter fun r =>
      r.periodType = periodType && s ≤ r.startTime && r.endTime ≤ e)

/-- `SQLiteStorage.QueryByDateRange` (timer.go:372):
`WHERE timestamp >= ? AND timestamp <= ? ORDER BY timestamp ASC`. -/
def queryByDateRange (st : Store) (s e : Int) : List ScreenshotR :=
  sortByKey (·.timestamp)
    (st.screenshots.filter fun r => s ≤ r.timestamp && r.timestamp ≤ e)

/-- `SQLiteStorage.GetPeriodSummary` (timer.go:477). -/
def getPeriodSummary (st : Store) (key : Str) : Option PeriodSummaryR :=
  st.periodSummaries.find? fun r => r.periodKey = key

/-- `SQLiteStorage.SavePeriodSummary` (timer.go:462): `INSERT OR REPLACE`. -/
def savePeriodSummary (r : PeriodSummaryR) (st : Store) : Store :=
  { st with periodSummaries :=
      (st.periodSummaries.filter fun x => x.periodKey ≠ r.periodKey) ++ [r] }

/-- `SQLiteStorage.GetScreenshotsByHourKey` (timer.go:225):
`WHERE hour_key = ? ORDER BY timestamp ASC`. -/
def getScreenshotsByHourKey (st : Store) (key : Str) : List ScreenshotR :=
  sortByKey (·.timestamp) (st.screenshots.filter fun r => r.hourKey = key)

/-- `SQLiteStorage.GetHourSummary` (timer.go:297). -/
def getHourSummary (st : Store) (key : Str) : Option HourSummaryR :=
  st.hourSummaries.find? fun r => r.hourKey = key

/-- `SQLiteStorage.SaveHourSummary` (timer.go:321): `INSERT OR REPLACE`. -/
def saveHourSummary (h : HourSummaryR) (st : Store) : Store :=
  { st with hourSummaries :=
      (st.hourSummaries.filter fun x => x.hourKey ≠ h.hourKey) ++ [h] }

/-- `config.WorkHoursConfig`. -/
structure WorkHoursConfig where
  startHour : Int
  startMinute : Int
  endHour : Int
  endMinute : Int
  deriving Repr, DecidableEq

/-- `WorkHoursConfig.IsWorkTime` (config.go:111). -/
def isWorkTime (w : WorkHoursConfig) (t : Int) : Bool :=
  if w.startHour = 0 && w.startMinute = 0 && w.endHour = 0 &&
     w.endMinute = 0 then true
  else
    let currentMinutes := hourOf t * 60 + minuteOf t
    let startMinutes := w.startHour * 60 + w.startMinute
    let endMinutes := w.endHour * 60 + w.endMinute
    if endMinutes < startMinutes then
      startMinutes ≤ currentMinutes || currentMinutes < endMinutes
    else
      startMinutes ≤ currentMinutes && currentMinutes < endMinutes

/-! ## Hour-bucket rollup (`updateHourSummary`, executor.go:2045) -/

/-- Digits-only parse of a decimal field. -/
def parseDigits (s : Str) : Option Nat :=
  if s ≠ [] && s.all Char.isDigit then
    some (s.foldl (fun acc c => acc * 10 + (c.toNat - 48)) 0)
  else none

/-- Parse of a `2006-01-02-15` hour key (the `time.Parse` call of
`SQLiteStorage.UpdateHourSummary`). -/
def parseHourKeyTime (s : Str) : Option Int :=
  match splitOnChar '-' s with
  | [y, mo, d, h] =>
    if y.length = 4 && mo.length = 2 && d.length = 2 && h.length = 2 then
      match parseDigits y, parseDigits mo, parseDigits d, parseDigits h with
      | some yv, some mv, some dv, some hv =>
        some (mkDate yv mv dv hv 0 0)
      | _, _, _, _ => none
    else none
  | _ => none

/-- Merge the stored id list with the new ids through the deduplicating
map of `SQLiteStorage.UpdateHourSummary` (timer.go:351-365); insertion
order of the map keys is kept, `orderH` models the map iteration that
turns them back into a slice. -/
def mergeHourIDs (orderH : List Str → List Str) (existing : Str)
    (screenshotIDs : List Str) : List Str :=
  let existingIDs := splitOnChar ',' existing
  let idList := existingIDs.foldl
    (fun acc idv => if idv ≠ [] && !acc.contains idv then acc ++ [idv] else acc) []
  let idList := screenshotIDs.foldl
    (fun acc idv => if !acc.contains idv then acc ++ [idv] else acc) idList
  orderH idList

/-- `SQLiteStorage.UpdateHourSummary` (timer.go:333). -/
def sqlUpdateHourSummary (orderH : List Str → List Str) (st : Store)
    (hourKey : Str) (screenshotIDs : List Str) (summary : Str) :
    Option Store :=
  let base :=
    match getHourSummary st hourKey with
    | some h => some h
    | none =>
      match parseHourKeyTime hourKey with
      | some t => some ⟨hourKey, t, hourOf t, [], []⟩
      | none => none
  match base with
  | none => none
  | some h =>
    let allIDs := mergeHourIDs orderH h.screenshots screenshotIDs
    some (saveHourSummary
      { h with screenshots := joinChar ',' allIDs, summary := summary } st)

/-- `Executor.updateHourSummary` (executor.go:2045): re-roll the hour
bucket of `record` as the newline-join, in timestamp order, of the
analyses that are nonempty, not (exactly) the string `Analysis failed`,
and not classified as desktop/lock screen; an empty join falls back to a
`Captured N screenshot(s)` message. -/
def updateHourSummary (orderH : List Str → List Str) (st : Store)
    (record : ScreenshotR) : Option Store :=
  let screenshots := getScreenshotsByHourKey st record.hourKey
  let ids := screenshots.map (·.id)
  let screenshotSummaries :=
    (screenshots.filter fun s =>
      s.analysis ≠ [] && s.analysis ≠ lit "Analysis failed" &&
      !isDesktopOrLockScreenAnalysis s.analysis).map (·.analysis)
  let hourSummary := joinChar '\n' screenshotSummaries
  let hourSummary :=
    if hourSummary = [] then
      lit "Captured " ++ intToStr ids.length ++
        lit " screenshot(s) during this hour"
    else hourSummary
  sqlUpdateHourSummary orderH st record.hourKey ids hourSummary

/-! ## Period aggregation (`generateSinglePeriodSummary`, executor.go:396)

External collaborators are abstract deterministic functions; the two
recursive generation helpers (`generateLowerLevelSummaries` and the
recursive `generateSinglePeriodSummary` call used for invalid-child
repair) are modelled as oracles transforming the store and reporting how
many external calls they made and whether they returned an error. -/

/-- The summarizer/analyzer collaborator (`analyzer.OpenAI`);
`Except.error` models a returned Go error. -/
structure AnalyzerM where
  generateSummary : Str → Str → Except Str Str
  analyzeBehavior : Str → Except Str Str

/-- Oracles for the recursive generation helpers.
`genLower periodType start end force isManual store` models
`generateLowerLevelSummaries`; `genChild periodType anchor force isManual
store` models the recursive `generateSinglePeriodSummary` call of the
invalid-child repair loop.  Each returns the new store, the number of
external calls made, and whether it succeeded. -/
structure Oracles where
  genLower : Str → Int → Int → Bool → Bool → Store → Store × Nat
  genChild : Str → Int → Bool → Bool → Store → Store × Nat × Bool

/-- The observable outcome of one run: final store, records upserted by
this invocation, the valid lower-level summaries it aggregated
(`validLowerSummaries` in the source), report files written and deleted
by this invocation, external calls made, and whether an error was
returned. -/
structure RunResult where
  store : Store
  saved : List PeriodSummaryR
  usedChildren : List PeriodSummaryR
  reportWrites : List Str
  reportDeletes : List Str
  extCalls : Nat
  isErr : Bool
  deriving Repr

/-- An early exit that upserts nothing and writes no report. -/
def earlyResult (st : Store) (calls : Nat) (used : List PeriodSummaryR)
    (err : Bool) : RunResult :=
  ⟨st, [], used, [], [], calls, err⟩

/-- The theoretical calendar window and period key computed by the
`switch periodType` of `generateSinglePeriodSummary` (executor.go:400);
`none` models the error returns (`work-segment` and unknown types). -/
def theoreticalRange (anchor : Int) (periodType : Str) :
    Option (Int × Int × Str) :=
  if periodType = lit "fifteenmin" then
    let roundedMinute := ((minuteOf anchor).fdiv 15) * 15
    let s := mkDate (yearOf anchor) (monthOf anchor) (dayOf anchor)
      (hourOf anchor) roundedMinute 0
    some (s, s + 15 * 60, fmtFifteenKey s)
  else if periodType = lit "hour" then
    let s := mkDate (yearOf anchor) (monthOf anchor) (dayOf anchor)
      (hourOf anchor) 0 0
    some (s, s + 3600, fmtHourKey s)
  else if periodType = lit "work-segment" then none
  else if periodType = lit "day" then
    let s := mkDate (yearOf anchor) (monthOf anchor) (dayOf anchor) 0 0 0
    some (s, addDate s 0 0 1, fmtDay s)
  else if periodType = lit "week" then
    let s := mondayOf anchor
    some (s, addDate s 0 0 7, fmtDay s ++ lit "-week")
  else if periodType = lit "month" then
    let s := mkDate (yearOf anchor) (monthOf anchor) 1 0 0 0
    some (s, addDate s 0 1 0, fmtMonthKey s)
  else if periodType = lit "quarter" then
    let quarter := (monthOf anchor - 1).fdiv 3 + 1
    let quarterStartMonth := (quarter - 1) * 3 + 1
    let s := mkDate (yearOf anchor) quarterStartMonth 1 0 0 0
    some (s, addDate s 0 3 0, fmtQuarterKey anchor)
  else if periodType = lit "year" then
    let s := mkDate (yearOf anchor) 1 1 0 0 0
    some (s, addDate s 1 0 0, fmtYearKey s)
  else none

/-- Earliest start / latest end over a nonempty summary list
(the min/max loop of `determineActualTimeRange`). -/
def spanOfSummaries (s0 : PeriodSummaryR) (rest : List PeriodSummaryR) :
    Int × Int :=
  rest.foldl
    (fun acc s =>
      (if s.startTime < acc.1 then s.startTime else acc.1,
       if acc.2 < s.endTime then s.endTime else acc.2))
    (s0.startTime, s0.endTime)

/-- Earliest / latest timestamp over a nonempty screenshot list. -/
def spanOfShots (s0 : ScreenshotR) (rest : List ScreenshotR) :
    Int × Int :=
  rest.foldl
    (fun acc s =>
      (if s.timestamp < acc.1 then s.timestamp else acc.1,
       if acc.2 < s.timestamp then s.timestamp else acc.2))
    (s0.timestamp, s0.timestamp)

/-- `determineActualTimeRange` (executor.go:973): query actual data to
determine the real range; returns the calendar-rounded actual range and
whether any data exists. -/
def determineActualTimeRange (w : WorkHoursConfig) (st : Store)
    (periodType : Str) (theoreticalStart theoreticalEnd : Int) :
    Int × Int × Bool :=
  let lowerLevelType := getLowerLevelPeriodType periodType
  let fromLower : Option (Int × Int) :=
    if lowerLevelType ≠ [] then
      match queryPeriodSummaries st lowerLevelType theoreticalStart
          theoreticalEnd with
      | [] => none
      | s0 :: rest => some (spanOfSummaries s0 rest)
    else none
  let span : Option (Int × Int) :=
    match fromLower with
    | some p => some p
    | none =>
      let shots := queryByDateRange st theoreticalStart theoreticalEnd
      if shots.isEmpty then none
      else
        let shots :=
          if periodType = lit "hour" || periodType = lit "day" then
            shots.filter fun r => isWorkTime w r.timestamp
          else shots
        match shots with
        | [] => none
        | s0 :: rest => some (spanOfShots s0 rest)
  match span with
  | none => (theoreticalStart, theoreticalEnd, false)
  | some (earliest, latest) =>
    if periodType = lit "day" then
      (mkDate (yearOf earliest) (monthOf earliest) (dayOf earliest) 0 0 0,
       mkDate (yearOf latest) (monthOf latest) (dayOf latest) 23 59 59,
       true)
    else if periodType = lit "hour" then
      (mkDate (yearOf earliest) (monthOf earliest) (dayOf earliest)
         (hourOf earliest) 0 0,
       mkDate (yearOf latest) (monthOf latest) (dayOf latest)
         (hourOf latest) 59 59,
       true)
    else if periodType = lit "fifteenmin" then
      let rmE := ((minuteOf earliest).fdiv 15) * 15
      let rmL := ((minuteOf latest).fdiv 15) * 15
      (mkDate (yearOf earliest) (monthOf earliest) (dayOf earliest)
         (hourOf earliest) rmE 0,
       mkDate (yearOf latest) (monthOf latest) (dayOf latest)
         (hourOf latest) (rmL + 14) 59,
       true)
    else if periodType = lit "week" then
      let aE := mkDate (yearOf latest) (monthOf latest) (dayOf latest)
        23 59 59
      let wdL := if weekdayOf latest = 0 then 7 else weekdayOf latest
      (mondayOf earliest, addDate aE 0 0 (7 - wdL), true)
    else if periodType = lit "month" then
      (mkDate (yearOf earliest) (monthOf earliest) 1 0 0 0,
       addDate (mkDate (yearOf latest) (monthOf latest) 1 0 0 0) 0 1 0 - 1,
       true)
    else if periodType = lit "quarter" then
      let qE := (monthOf earliest - 1).fdiv 3 + 1
      let qL := (monthOf latest - 1).fdiv 3 + 1
      (mkDate (yearOf earliest) ((qE - 1) * 3 + 1) 1 0 0 0,
       addDate (mkDate (yearOf latest) (qL * 3) 1 0 0 0) 0 1 0 - 1,
       true)
    else if periodType = lit "year" then
      (mkDate (yearOf earliest) 1 1 0 0 0,
       mkDate (yearOf latest) 12 31 23 59 59, true)
    else (theoreticalStart, theoreticalEnd, true)

/-- Accumulator of the lower-summary filtering loop (executor.go:578-618):
valid summary texts, keys queued for repair, the `validLowerSummaries`
list, and the insertion-ordered deduplicated screenshot-id set. -/
structure CollectAcc where
  texts : List Str
  invalidKeys : List Str
  valids : List PeriodSummaryR
  ids : List Str
  deriving Repr

/-- Add the comma-separated ids of a summary to the deduplicated id set
(executor.go:605-613): each piece is trimmed and skipped when empty. -/
def addIDs (ids : List Str) (screenshots : Str) : List Str :=
  if screenshots ≠ [] then
    (splitOnChar ',' screenshots).foldl
      (fun acc idv =>
        let t := trimSpace idv
        if t ≠ [] && !acc.contains t then acc ++ [t] else acc)
      ids
  else ids

/-- One step of the lower-summary filtering loop (executor.go:582-618):
placeholders are skipped silently, empty or invalid summaries are queued
for repair, valid summaries contribute their text and ids. -/
def collectChild (acc : CollectAcc) (s : PeriodSummaryR) : CollectAcc :=
  if s.summary = placeholderLit then acc
  else if s.summary = [] || isInvalidSummary s.summary then
    { acc with invalidKeys := acc.invalidKeys ++ [s.periodKey] }
  else
    { texts := acc.texts ++ [s.summary],
      invalidKeys := acc.invalidKeys,
      valids := acc.valids ++ [s],
      ids := addIDs acc.ids s.screenshots }

/-- One step of the invalid-summary repair loop (executor.go:621-708):
regenerate the child through the recursive-call oracle, re-query it, and
include it only when the repair produced valid content. -/
def repairStep (oracle : Oracles) (lowerLevelType : Str) (forceArg : Bool)
    (isManual : Bool) (lowerSummaries : List PeriodSummaryR)
    (acc : Store × CollectAcc × Nat) (invalidKey : Str) :
    Store × CollectAcc × Nat :=
  let (st, c, calls) := acc
  match lowerSummaries.find? fun s => s.periodKey = invalidKey with
  | none => (st, c, calls)
  | some invalidSummary =>
    let r := oracle.genChild lowerLevelType invalidSummary.startTime
      forceArg isManual st
    let st' := r.1
    let n := r.2.1
    let ok := r.2.2
    if ok then
      match getPeriodSummary st' invalidKey with
      | some regenerated =>
        if regenerated.summary ≠ [] &&
           !isInvalidSummary regenerated.summary then
          (st',
           { texts := c.texts ++ [regenerated.summary],
             invalidKeys := c.invalidKeys,
             valids := c.valids ++ [regenerated],
             ids := addIDs c.ids regenerated.screenshots },
           calls + n)
        else (st', c, calls + n)
      | none => (st', c, calls + n)
    else (st', c, calls + n)

/-- The data carried into the shared persistence tail of
`generateSinglePeriodSummary` (executor.go:918-968). -/
structure ProceedData where
  store : Store
  extCalls : Nat
  usedChildren : List PeriodSummaryR
  periodKey : Str
  periodType : Str
  startTime : Int
  endTime : Int
  idList : List Str
  summaryText : Str
  analysisText : Str

/-- `savePeriodSummaryReport` (executor.go:2382) acting on the report
artifact state: an invalid record deletes a stale artifact (when one
exists) and writes nothing; a valid record writes the report file.
Returns (files, writes performed, deletes performed). -/
def savePeriodSummaryReportM (summary : PeriodSummaryR)
    (files : List Str) : List Str × List Str × List Str :=
  if !hasValidContent summary then
    if files.contains summary.periodKey then
      (files.filter (· ≠ summary.periodKey), [], [summary.periodKey])
    else (files, [], [])
  else
    ((if files.contains summary.periodKey then files
      else files ++ [summary.periodKey]),
     [summary.periodKey], [])

/-- The persist-or-placeholder tail of `generateSinglePeriodSummary`
(executor.go:918-968).  The Go map iteration that produced
`allScreenshotIDs` is modelled by applying `order` to the
insertion-ordered id set; a record without valid content is replaced by
the placeholder record (no report file written, no stale file deleted),
a valid record is upserted and its report file written. -/
def persistStep (order : List Str → List Str) (p : ProceedData) :
    RunResult :=
  let allScreenshotIDs := order p.idList
  let summary : PeriodSummaryR :=
    ⟨p.periodKey, p.periodType, p.startTime, p.endTime,
     joinChar ',' allScreenshotIDs, p.summaryText, p.analysisText⟩
  if !hasValidContent summary then
    let placeholder : PeriodSummaryR :=
      ⟨p.periodKey, p.periodType, p.startTime, p.endTime, [],
       placeholderLit, []⟩
    ⟨savePeriodSummary placeholder p.store, [placeholder],
     p.usedChildren, [], [], p.extCalls, false⟩
  else
    let st' := savePeriodSummary summary p.store
    let (files', writes, deletes) :=
      savePeriodSummaryReportM summary st'.reportFiles
    ⟨{ st' with reportFiles := files' }, [summary], p.usedChildren,
     writes, deletes, p.extCalls, false⟩

/-- The aggregated levels whose summaries may be merged directly
(executor.go:717-724). -/
def aggregatedLevels : List Str :=
  [lit "work-segment", lit "day", lit "week", lit "month",
   lit "quarter", lit "year"]

/-- The behavioral-analysis step (executor.go:818-834 and 899-915):
only for week and longer periods, and only when the merged summary shows
valid work activity; an analyzer error is recorded as a formatted
failure string.  Returns (analysis text, external calls). -/
def analysisStep (an : AnalyzerM) (periodType : Str)
    (periodSummary : Str) (sourceCount : Nat) : Str × Nat :=
  if periodSummary ≠ [] && 0 < sourceCount &&
     shouldGenerateAnalysis periodType then
    if hasValidWorkActivity periodSummary then
      match an.analyzeBehavior periodSummary with
      | .error e => (lit "分析失败: " ++ e, 1)
      | .ok r => (r, 1)
    else ([], 0)
  else ([], 0)

/-- An early exit of one aggregation run, before the persistence tail. -/
structure EarlyData where
  store : Store
  extCalls : Nat
  usedChildren : List PeriodSummaryR
  isErr : Bool

/-- The lower-level aggregation block of `generateSinglePeriodSummary`
(executor.go:491-843), up to but not including the shared persistence
tail: either an early exit or the data handed to the persistence tail. -/
def runLowerCore (an : AnalyzerM) (oracle : Oracles)
    (periodKey periodType lowerLevelType : Str) (startTime endTime : Int)
    (forceFromScreenshots isManual : Bool) (st : Store) :
    EarlyData ⊕ ProceedData :=
  let lowerSummaries :=
    queryPeriodSummaries st lowerLevelType startTime endTime
  -- force rebuild / generate-missing handling (executor.go:500-576)
  let afterGen : Store × List PeriodSummaryR × Nat :=
    if forceFromScreenshots then
      let r := oracle.genLower lowerLevelType startTime endTime
        forceFromScreenshots isManual st
      (r.1, queryPeriodSummaries r.1 lowerLevelType startTime endTime, r.2)
    else if lowerSummaries = [] then
      let shots := queryByDateRange st startTime endTime
      let validScreenshots := shots.filter fun s =>
        s.analysis ≠ [] && !startsWith s.analysis (lit "Analysis failed") &&
        !isDesktopOrLockScreenAnalysis s.analysis
      if validScreenshots = [] then (st, [], 0)
      else
        let r := oracle.genLower lowerLevelType startTime endTime
          forceFromScreenshots isManual st
        (r.1, queryPeriodSummaries r.1 lowerLevelType startTime endTime, r.2)
    else (st, lowerSummaries, 0)
  let st1 := afterGen.1
  let ls := afterGen.2.1
  let preCalls := afterGen.2.2
  let acc1 := ls.foldl collectChild ⟨[], [], [], []⟩
  -- invalid-summary repair (executor.go:621-708)
  let lowerLowerLevelType := getLowerLevelPeriodType lowerLevelType
  let forceArg :=
    if lowerLowerLevelType ≠ [] then forceFromScreenshots else true
  let afterRepair : Store × CollectAcc × Nat :=
    if acc1.invalidKeys ≠ [] then
      acc1.invalidKeys.foldl
        (repairStep oracle lowerLevelType forceArg isManual ls)
        (st1, acc1, 0)
    else (st1, acc1, 0)
  let st2 := afterRepair.1
  let acc2 := afterRepair.2.1
  let repairCalls := afterRepair.2.2
  let summaryTexts := acc2.texts
  if summaryTexts ≠ [] then
    -- merge step (executor.go:710-776)
    let shouldDirectMerge :=
      lowerLevelType ≠ [] && aggregatedLevels.contains lowerLevelType &&
      summaryTexts.length ≤ 10 && !isManual
    let merged : Except Str Str × Nat :=
      if shouldDirectMerge then
        (.ok (joinStr (lit "\n\n---\n\n") summaryTexts), 0)
      else if summaryTexts.length = 1 then
        (an.generateSummary (summaryTexts.headD []) periodType, 1)
      else if summaryTexts.length = 2 then
        (an.generateSummary (joinStr (lit "\n\n") summaryTexts) periodType, 1)
      else
        (an.generateSummary (joinStr (lit "\n\n") summaryTexts) periodType, 1)
    let afterFinal : Str × Nat :=
      match merged.1 with
      | .error _ => (joinStr (lit "\n\n") summaryTexts, 0)
      | .ok summaryResult =>
        if periodType = lit "week" || periodType = lit "month" ||
           periodType = lit "quarter" || periodType = lit "year" then
          match an.generateSummary summaryResult periodType with
          | .error _ => (summaryResult, 1)
          | .ok finalSummary => (finalSummary, 1)
        else (summaryResult, 0)
    let periodSummary := cleanSummaryIfNoWorkActivity afterFinal.1
    let callsSoFar := preCalls + repairCalls + merged.2 + afterFinal.2
    -- executor.go:809: no valid content and no screenshots → no record
    if periodSummary = [] && acc2.ids = [] then
      .inl ⟨st2, callsSoFar, acc2.valids, false⟩
    else
      let anr := analysisStep an periodType periodSummary
        summaryTexts.length
      .inr ⟨st2, callsSoFar + anr.2, acc2.valids, periodKey, periodType,
         startTime, endTime, acc2.ids, periodSummary, anr.1⟩
  else
    -- executor.go:777-795: no valid summaries; without ids, no record
    if acc2.ids = [] then
      .inl ⟨st2, preCalls + repairCalls, acc2.valids, false⟩
    else
      let periodSummary := cleanSummaryIfNoWorkActivity []
      let anr := analysisStep an periodType periodSummary 0
      .inr ⟨st2, preCalls + repairCalls + anr.2, acc2.valids, periodKey,
         periodType, startTime, endTime, acc2.ids, periodSummary, anr.1⟩

/-- The raw-screenshot aggregation block of `generateSinglePeriodSummary`
(executor.go:846-916), up to but not including the shared persistence
tail. -/
def runScreenshotCore (an : AnalyzerM) (periodKey periodType : Str)
    (startTime endTime : Int) (st : Store) : EarlyData ⊕ ProceedData :=
  let shots := queryByDateRange st startTime endTime
  if shots = [] then .inl ⟨st, 0, [], false⟩
  else
    let ids := shots.foldl
      (fun acc s =>
        if s.id ≠ [] && !acc.contains s.id then acc ++ [s.id] else acc) []
    let screenshotSummaries :=
      (shots.filter fun s =>
        s.analysis ≠ [] && !startsWith s.analysis (lit "Analysis failed") &&
        !isDesktopOrLockScreenAnalysis s.analysis).map (·.analysis)
    let genr : Str × Nat :=
      if screenshotSummaries ≠ [] then
        let rawSummaryText := joinChar '\n' screenshotSummaries
        match an.generateSummary rawSummaryText periodType with
        | .error _ => (rawSummaryText, 1)
        | .ok r => (r, 1)
      else ([], 0)
    let periodSummary := cleanSummaryIfNoWorkActivity genr.1
    let anr := analysisStep an periodType periodSummary
      screenshotSummaries.length
    .inr ⟨st, genr.2 + anr.2, [], periodKey, periodType, startTime, endTime,
       ids, periodSummary, anr.1⟩

/-- `generateSinglePeriodSummary` (executor.go:396) up to but not
including the shared persistence tail: the early exits are collected in
`EarlyData` (the `.isErr` field tells a returned error apart from a
silent skip), a run that reaches the persistence tail yields the
`ProceedData` it hands over. -/
def generateSinglePeriodSummaryCore (w : WorkHoursConfig) (an : AnalyzerM)
    (oracle : Oracles) (clockNow : Int) (anchor : Int) (periodType : Str)
    (forceFromScreenshots isManual : Bool) (st : Store) :
    EarlyData ⊕ ProceedData :=
  match theoreticalRange anchor periodType with
  | none => .inl ⟨st, 0, [], true⟩
  | some (theoStart, theoEnd, periodKey) =>
    -- automatic generation skips long periods that have not ended yet
    if !isManual &&
       (periodType = lit "week" || periodType = lit "month" ||
        periodType = lit "quarter" || periodType = lit "year") &&
       timeBefore clockNow theoEnd then
      .inl ⟨st, 0, [], false⟩
    else
      let ar := determineActualTimeRange w st periodType theoStart theoEnd
      if !ar.2.2 then .inl ⟨st, 0, [], false⟩
      else
        let startTime := ar.1
        let endTime := ar.2.1
        let lowerLevelType := getLowerLevelPeriodType periodType
        if lowerLevelType ≠ [] then
          runLowerCore an oracle periodKey periodType lowerLevelType
            startTime endTime forceFromScreenshots isManual st
        else
          runScreenshotCore an periodKey periodType startTime endTime st

/-- `generateSinglePeriodSummary` (executor.go:396): one aggregation run
for a (period type, anchor) pair; the core computation followed by the
persist-or-placeholder tail (which is where the Go map iteration
modelled by `order` happens). -/
def generateSinglePeriodSummary (w : WorkHoursConfig) (an : AnalyzerM)
    (oracle : Oracles) (order : List Str → List Str) (clockNow : Int)
    (anchor : Int) (periodType : Str)
    (forceFromScreenshots isManual : Bool) (st : Store) : RunResult :=
  match generateSinglePeriodSummaryCore w an oracle clockNow anchor
      periodType forceFromScreenshots isManual st with
  | .inl e => earlyResult e.store e.extCalls e.usedChildren e.isErr
  | .inr p => persistStep order p

/-! ## Work-segment generation (`generateWorkSegmentSummary`,
executor.go:1520) -/

/-- The 2-hour segment construction loop (executor.go:1539-1562), with a
structural fuel: every iteration advances `current` by at least one
second, so `fuel = (workEnd - current).toNat` iterations always
suffice. -/
def segmentsLoopAux (workEnd : Int) (dayKeyStr : Str) : Nat → Int →
    Nat → List (Int × Int × Str)
  | 0, _, _ => []
  | fuel + 1, current, idx =>
    if current < workEnd then
      let segEnd0 := current + 2 * 3600
      let segEnd := if timeAfter segEnd0 workEnd then workEnd else segEnd0
      (current, segEnd,
        dayKeyStr ++ lit "-segment-" ++ intToStr (Int.ofNat idx)) ::
        segmentsLoopAux workEnd dayKeyStr fuel segEnd (idx + 1)
    else []

/-- The 2-hour segment construction loop (executor.go:1539-1562). -/
def segmentsLoop (workEnd : Int) (dayKeyStr : Str) (current : Int)
    (idx : Nat) : List (Int × Int × Str) :=
  segmentsLoopAux workEnd dayKeyStr (workEnd - current).toNat current idx

/-- One segment of `generateWorkSegmentSummary` (executor.go:1565-1655):
query the hour summaries inside the segment, keep the work-time ones,
collect every summary text that is nonempty and every screenshot-id list
that is nonempty (regardless of validity), merge, and persist the segment
record plus its report file. -/
def processSegment (an : AnalyzerM) (w : WorkHoursConfig) (force : Bool)
    (acc : Store × List PeriodSummaryR × List PeriodSummaryR ×
      List Str × List Str × Nat)
    (seg : Int × Int × Str) :
    Store × List PeriodSummaryR × List PeriodSummaryR ×
      List Str × List Str × Nat :=
  let (st, saved, used, writes, deletes, calls) := acc
  let (segStart, segEnd, segKey) := seg
  let existing := getPeriodSummary st segKey
  if existing = none || force then
    let hourSummaries := queryPeriodSummaries st (lit "hour") segStart segEnd
    let workHourSummaries :=
      hourSummaries.filter fun s => isWorkTime w s.startTime
    if workHourSummaries = [] then acc
    else
      let summaryTexts :=
        (workHourSummaries.filter fun s => s.summary ≠ []).map (·.summary)
      let allScreenshotIDs := workHourSummaries.foldl
        (fun l s =>
          if s.screenshots ≠ [] then l ++ splitOnChar ',' s.screenshots
          else l) []
      let genr : Str × Nat :=
        if summaryTexts ≠ [] then
          if summaryTexts.length = 1 then (summaryTexts.headD [], 0)
          else
            match an.generateSummary (joinStr (lit "\n\n") summaryTexts)
                (lit "work-segment") with
            | .error _ => (joinStr (lit "\n\n") summaryTexts, 1)
            | .ok r => (r, 1)
        else (lit "No work activity in segment " ++ segKey, 0)
      let summary : PeriodSummaryR :=
        ⟨segKey, lit "work-segment", segStart, segEnd,
         joinChar ',' allScreenshotIDs, genr.1, []⟩
      let st' := savePeriodSummary summary st
      let rep := savePeriodSummaryReportM summary st'.reportFiles
      ({ st' with reportFiles := rep.1 }, saved ++ [summary],
       used ++ workHourSummaries, writes ++ rep.2.1, deletes ++ rep.2.2,
       calls + genr.2)
  else acc

/-- `generateWorkSegmentSummary` (executor.go:1520): divide the work
hours of `dayStart` into 2-hour segments and aggregate each from its
work-time hour summaries. -/
def generateWorkSegmentSummary (an : AnalyzerM) (w : WorkHoursConfig)
    (dayStart : Int) (forceFromScreenshots : Bool) (st : Store) :
    RunResult :=
  let workStart := mkDate (yearOf dayStart) (monthOf dayStart)
    (dayOf dayStart) w.startHour w.startMinute 0
  let workEnd := mkDate (yearOf dayStart) (monthOf dayStart)
    (dayOf dayStart) w.endHour w.endMinute 0
  let segments := segmentsLoop workEnd (fmtDay dayStart) workStart 0
  let r := segments.foldl (processSegment an w forceFromScreenshots)
    (st, [], [], [], [], 0)
  ⟨r.1, r.2.1, r.2.2.1, r.2.2.2.1, r.2.2.2.2.1, r.2.2.2.2.2, false⟩

/-! ## Consistency manager (`runValidate`, validate.go:49, and
`BuildPeriodKeyFromStartTime`, report_parser.go:404) -/

/-- `BuildPeriodKeyFromStartTime` (report_parser.go:404): rebuild a
period key from a start time; the default branch (which includes
`work-segment`) returns the empty string. -/
def buildPeriodKeyFromStartTime (startTime : Int) (periodType : Str) :
    Str :=
  if periodType = lit "fifteenmin" then fmtFifteenKey startTime
  else if periodType = lit "hour" then fmtHourKey startTime
  else if periodType = lit "day" then fmtDay startTime
  else if periodType = lit "week" then
    let wd := if weekdayOf startTime = 0 then 7 else weekdayOf startTime
    fmtDay (addDate startTime 0 0 (-(wd - 1))) ++ lit "-week"
  else if periodType = lit "month" then fmtMonthKey startTime
  else if periodType = lit "quarter" then fmtQuarterKey startTime
  else if periodType = lit "year" then fmtYearKey startTime
  else []

/-- Modelled from the spec: `FileSystemStorage.GetPeriodSummary` (the
file `internal/storage/filesystem.go` holding `FileSystemStorage` is not
under `src/`; per the spec the content store serves the report file
stored at the key's path, parsed back into a summary record). -/
def contentGetPeriodSummary (st : Store) (key : Str) :
    Option PeriodSummaryR :=
  st.contentFiles.find? fun r => r.periodKey = key

/-- Modelled from the spec: `FileSystemStorage.QueryPeriodSummaries`
(file not under `src/`; per the spec the content store scans the report
files of the requested type and range, each carrying a path-derived
period key and the start time recorded inside the file). -/
def fileSystemQueryPeriodSummaries (st : Store) (periodType : Str)
    (s e : Int) : List PeriodSummaryR :=
  sortByKey (·.startTime)
    (st.contentFiles.filter fun r =>
      r.periodType = periodType && s ≤ r.startTime && r.endTime ≤ e)

/-- `ReportStorage.QueryPeriodSummaries` (report.go:91): metadata is the
source of truth; placeholders are served from metadata, other records are
enriched from the content store when the file exists, preserving the
metadata screenshot ids. -/
def reportStorageQueryPeriodSummaries (st : Store) (periodType : Str)
    (s e : Int) : List PeriodSummaryR :=
  (queryPeriodSummaries st periodType s e).map fun meta =>
    if meta.summary = placeholderLit then meta
    else
      match contentGetPeriodSummary st meta.periodKey with
      | some content => { content with screenshots := meta.screenshots }
      | none => meta

/-- The per-type reconciliation loop of `runValidate`
(validate.go:132-246), returning the metadata records it saves: in
rebuild mode the filesystem side is queried from the content store,
otherwise both sides come from the same hybrid report storage; a
filesystem record whose key has no database record is saved (in fix or
rebuild mode) under the key re-derived from its recorded start time when
that key is nonempty and differs from the path-derived key. -/
def runValidateType (rebuildDB fix : Bool) (st : Store)
    (periodType : Str) (s e : Int) : List PeriodSummaryR :=
  let dbSummaries := reportStorageQueryPeriodSummaries st periodType s e
  let fsSummaries :=
    if rebuildDB then fileSystemQueryPeriodSummaries st periodType s e
    else reportStorageQueryPeriodSummaries st periodType s e
  let dbKeys := dbSummaries.map (·.periodKey)
  fsSummaries.foldl
    (fun saves fsSummary =>
      if !dbKeys.contains fsSummary.periodKey then
        if fix || rebuildDB then
          let correctedKey :=
            buildPeriodKeyFromStartTime fsSummary.startTime periodType
          let finalKey :=
            if correctedKey ≠ [] && correctedKey ≠ fsSummary.periodKey then
              correctedKey
            else fsSummary.periodKey
          saves ++ [{ fsSummary with periodKey := finalKey }]
        else saves
      else saves)
    []

/-! ## Definitions used by the theorem statements -/

/-- The reading of a serialized contributing-observation-id set: split on
commas, trim each piece, drop empties (the same normalisation the
aggregator applies when it consumes such a field). -/
def idsOf (s : Str) : List Str :=
  ((splitOnChar ',' s).map trimSpace).filter (· ≠ [])

/-- All fields of a period summary except the serialized id list. -/
def projNoIDs (r : PeriodSummaryR) : Str × Str × Int × Int × Str × Str :=
  (r.periodKey, r.periodType, r.startTime, r.endTime, r.summary,
   r.analysis)

/-- The contributing-observation-id set of a record, as a finite set. -/
def idFinset (r : PeriodSummaryR) : Finset Str :=
  (idsOf r.screenshots).toFinset

/-- Work-hours configuration `0:0-0:0` (every time is work time). -/
def wAll : WorkHoursConfig := ⟨0, 0, 0, 0⟩

/-- The default work-hours configuration 9:30-20:00. -/
def wStd : WorkHoursConfig := ⟨9, 30, 20, 0⟩

/-- A deterministic summarizer that always succeeds with a fixed valid
work summary. -/
def anDet : AnalyzerM :=
  ⟨fun _ _ => .ok (lit "完成了项目代码的开发与测试"),
   fun _ => .ok (lit "行为分析结果")⟩

/-- A deterministic summarizer whose merge output is the bare
no-work-activity phrase. -/
def anNoWork : AnalyzerM :=
  ⟨fun _ _ => .ok (lit "没有检测到有效工作活动"),
   fun _ => .ok (lit "行为分析结果")⟩

/-- Identity oracles: the recursive generation helpers change nothing and
make no external calls. -/
def oracleId : Oracles :=
  ⟨fun _ _ _ _ _ st => (st, 0), fun _ _ _ _ st => (st, 0, true)⟩

/-- Concrete valid fifteen-minute child `2025-11-21-10-00`. -/
def childF1 : PeriodSummaryR :=
  ⟨lit "2025-11-21-10-00", lit "fifteenmin", mkDate 2025 11 21 10 0 0,
   mkDate 2025 11 21 10 15 0, lit "a", lit "完成项目代码开发工作", []⟩

/-- Concrete valid fifteen-minute child `2025-11-21-10-15`. -/
def childF2 : PeriodSummaryR :=
  ⟨lit "2025-11-21-10-15", lit "fifteenmin", mkDate 2025 11 21 10 15 0,
   mkDate 2025 11 21 10 30 0, lit "b", lit "调试并测试了系统模块", []⟩

/-- Store with the two valid fifteen-minute children (claim C1). -/
def storeC1 : Store := ⟨[childF1, childF2], [], [], [], []⟩

/-- An hour run over `storeC1`, parameterized by the map-iteration
order. -/
def runC1 (order : List Str → List Str) : RunResult :=
  generateSinglePeriodSummary wAll anDet oracleId order
    (mkDate 2025 11 21 10 0 0) (mkDate 2025 11 21 10 0 0) (lit "hour")
    false true storeC1

/-- The placeholder record for `2025-11-21-10-00` (claim C3). -/
def placeholderF : PeriodSummaryR :=
  ⟨lit "2025-11-21-10-00", lit "fifteenmin", mkDate 2025 11 21 10 0 0,
   mkDate 2025 11 21 10 14 59, [], placeholderLit, []⟩

/-- A screenshot with a valid work analysis inside that period. -/
def shotC3 : ScreenshotR :=
  ⟨lit "s1", mkDate 2025 11 21 10 3 0, lit "编写代码",
   lit "2025-11-21-10"⟩

/-- Store whose record for `2025-11-21-10-00` is the placeholder while a
valid screenshot exists in the window (claim C3). -/
def storeC3 : Store := ⟨[placeholderF], [shotC3], [], [], []⟩

/-- A non-forced fifteen-minute run for the placeholder's own key. -/
def runC3 : RunResult :=
  generateSinglePeriodSummary wAll anNoWork oracleId id
    (mkDate 2025 11 21 10 0 0) (mkDate 2025 11 21 10 0 0)
    (lit "fifteenmin") false true storeC3

/-- A desktop screenshot (its analysis classifies as desktop). -/
def shotC7 : ScreenshotR :=
  ⟨lit "s1", mkDate 2025 11 21 10 3 0, lit "电脑桌面",
   lit "2025-11-21-10"⟩

/-- Store with only the desktop screenshot, plus a stale report artifact
for the period `2025-11-21-10-00` (claim C7). -/
def storeC7 : Store :=
  ⟨[], [shotC7], [], [lit "2025-11-21-10-00"], []⟩

/-- A fifteen-minute run over `storeC7`: it finds data (the desktop
screenshot) but no valid content, so it persists a placeholder. -/
def runC7 : RunResult :=
  generateSinglePeriodSummary wAll anDet oracleId id
    (mkDate 2025 11 21 10 0 0) (mkDate 2025 11 21 10 0 0)
    (lit "fifteenmin") false true storeC7

/-- An hour summary with an empty summary text but a nonempty id list
(claim C2). -/
def hourChildC2 : PeriodSummaryR :=
  ⟨lit "2025-11-21-10", lit "hour", mkDate 2025 11 21 10 0 0,
   mkDate 2025 11 21 10 59 59, lit "id1", [], []⟩

/-- Store with only that hour summary (claim C2). -/
def storeC2 : Store := ⟨[hourChildC2], [], [], [], []⟩

/-- A work-segment generation run over `storeC2`. -/
def runC2cex : RunResult :=
  generateWorkSegmentSummary anDet wStd (mkDate 2025 11 21 0 0 0) false
    storeC2

/-- A screenshot whose analysis is a retained failure marker (claim C6). -/
def shotC6 : ScreenshotR :=
  ⟨lit "s1", mkDate 2025 11 21 10 3 0, lit "Analysis failed: timeout",
   lit "2025-11-21-10"⟩

/-- Store with only that screenshot (claim C6). -/
def storeC6 : Store := ⟨[], [shotC6], [], [], []⟩

/-- The filter of observation texts the specification describes for the
hour re-roll: nonempty, not failure-marked, not desktop/lock-screen. -/
def specHourTexts (shots : List ScreenshotR) : List Str :=
  (shots.filter fun s =>
    s.analysis ≠ [] && !startsWith s.analysis (lit "Analysis failed") &&
    !isDesktopOrLockScreenAnalysis s.analysis).map (·.analysis)

/-- A content-store day file with no metadata record (claim C10). -/
def fileC10a : PeriodSummaryR :=
  ⟨lit "2025-11-21", lit "day", mkDate 2025 11 21 0 0 0,
   mkDate 2025 11 22 0 0 0, [], lit "一天的工作内容", []⟩

/-- Store whose metadata is empty while the content store has the day
file (claim C10, fix mode). -/
def storeC10a : Store := ⟨[], [], [], [], [fileC10a]⟩

/-- A content-store work-segment file with no metadata record
(claim C10, rebuild mode). -/
def fileC10b : PeriodSummaryR :=
  ⟨lit "2025-11-21-segment-0", lit "work-segment",
   mkDate 2025 11 21 9 30 0, mkDate 2025 11 21 11 30 0, [],
   lit "上午的工作内容", []⟩

/-- Store whose metadata is empty while the content store has the
work-segment file (claim C10, rebuild mode). -/
def storeC10b : Store := ⟨[], [], [], [], [fileC10b]⟩

/-- A pairwise merge that always succeeds by concatenation with a
marker. -/
def mOk : Str → Str → Option Str := fun a b => some (a ++ '|' :: b)

/-- A pairwise merge that always fails. -/
def mFail : Str → Str → Option Str := fun _ _ => none

/-- A total deterministic pairwise merge (for witnesses). -/
def mCat : Str → Str → Str := fun a b => a ++ '|' :: b

/-- A store holding only the fifteen-minute placeholder record. -/
def storeAllPlaceholder : Store := ⟨[placeholderF], [], [], [], []⟩

/-- The empty store. -/
def storeEmpty : Store := ⟨[], [], [], [], []⟩

/-- The bare no-work-activity phrase of claim C8. -/
def noWorkPhrase : Str := lit "没有检测到有效工作活动"

/-- Lowercase ASCII word characters (letters and digits), the alphabet of
the concrete work-description text family of claim C8. -/
def asciiWordChars : Str := lit "abcdefghijklmnopqrstuvwxyz0123456789"

/-- A well-formed id token: trimmed, nonempty and comma-free (the shape
every entry of the deduplicated screenshot-id set has). -/
def wfIdTok (y : Str) : Prop := trimSpace y = y ∧ y ≠ [] ∧ ',' ∉ y

/-- A child summary that counts as valid and non-placeholder (the filter
of executor.go:582-618). -/
def validChild (c : PeriodSummaryR) : Prop :=
  c.summary ≠ [] ∧ isInvalidSummary c.summary = false ∧
  c.summary ≠ placeholderLit

/-- Every collected id token is well formed and traceable to a collected
valid non-placeholder child. -/
def goodAcc (valids : List PeriodSummaryR) (ids : List Str) : Prop :=
  ∀ y ∈ ids, wfIdTok y ∧
    ∃ c ∈ valids, validChild c ∧ y ∈ idsOf c.screenshots


/-! ## Helper lemmas -/

section Lemmas

/-- One tree level halves the fragment count, rounding up. -/
theorem treeLevel_length (m : Str → Str → Option Str) :
    ∀ l : List Str, (treeLevel m l).1.length = (l.length + 1) / 2 := by
  intro l
  induction l using treeLevel.induct m with
  | case1 => simp [treeLevel]
  | case2 a => simp [treeLevel]
  | case3 a b rest l c heq ih =>
    rw [heq] at ih
    simp only [treeLevel, heq]
    simp at ih ⊢
    omega

/-- Index-wise description of one tree level: position `i` of the output
holds the merge (or concatenation fallback) of fragments `2i` and
`2i+1`, or fragment `2i` alone when it has no partner. -/
theorem treeLevel_get (m : Str → Str → Option Str) :
    ∀ (l : List Str) (i : Nat),
      (treeLevel m l).1[i]? =
        match l[2 * i]?, l[2 * i + 1]? with
        | some a, some b => some ((m a b).getD (a ++ lit "\n\n" ++ b))
        | some a, none => some a
        | none, _ => none := by
  intro l
  induction l using treeLevel.induct m with
  | case1 => intro i; simp [treeLevel]
  | case2 a =>
    intro i
    cases i with
    | zero => simp [treeLevel]
    | succ j =>
      have h2 : 2 * (j + 1) = 2 * j + 1 + 1 := by omega
      simp [treeLevel, h2, List.getElem?_cons_succ]
  | case3 a b rest l c heq ih =>
    intro i
    cases i with
    | zero => simp [treeLevel, heq]
    | succ j =>
      have h2 : 2 * (j + 1) = 2 * j + 1 + 1 := by omega
      have h3 : 2 * (j + 1) + 1 = 2 * j + 1 + 1 + 1 := by omega
      simp only [treeLevel, heq, h2, h3, List.getElem?_cons_succ]
      have := ih j
      rw [heq] at this
      exact this

/-- With enough fuel the level loop reaches a single fragment. -/
theorem treeLoopAux_length (m : Str → Str → Option Str) :
    ∀ (fuel : Nat) (l : List Str), l.length ≤ fuel + 1 →
      (treeLoopAux m fuel l).1.length ≤ 1 := by
  intro fuel
  induction fuel with
  | zero => intro l h; simpa [treeLoopAux] using h
  | succ fuel ih =>
    intro l h
    by_cases hl : l.length ≤ 1
    · simp [treeLoopAux, hl]
    · have hlev := treeLevel_length m l
      have : (treeLevel m l).1.length ≤ fuel + 1 := by omega
      simp only [treeLoopAux, hl, if_false]
      exact ih _ this

/-- The level loop never loses all fragments. -/
theorem treeLoopAux_ne_nil (m : Str → Str → Option Str) :
    ∀ (fuel : Nat) (l : List Str), l ≠ [] →
      (treeLoopAux m fuel l).1 ≠ [] := by
  intro fuel
  induction fuel with
  | zero => intro l h; simpa [treeLoopAux] using h
  | succ fuel ih =>
    intro l h
    by_cases hl : l.length ≤ 1
    · simpa [treeLoopAux, hl] using h
    · have hlev := treeLevel_length m l
      have hne : (treeLevel m l).1 ≠ [] := by
        intro hnil
        rw [hnil] at hlev
        simp at hlev
        omega
      simp only [treeLoopAux, hl, if_false]
      exact ih _ hne

/-- Tree aggregation of a nonempty fragment list always returns a
result (failed pairwise merges degrade to concatenation, they never
abort the reduction). -/
theorem treeAgg_complete (m : Str → Str → Option Str) (l : List Str)
    (h : l ≠ []) :
    ∃ r, (processTreeAggregationWithTimeContext m l).1 = some r := by
  have h1 := treeLoopAux_ne_nil m l.length l h
  unfold processTreeAggregationWithTimeContext treeLoop
  cases hres : (treeLoopAux m l.length l).1 with
  | nil => exact absurd hres h1
  | cons x xs => exact ⟨x, by simp [hres]⟩

/-- Linear rolling with a merge that always succeeds is the left fold
seeded with the first fragment, at one external call per remaining
fragment. -/
theorem linearRoll_total (m' : Str → Str → Str) :
    ∀ (rest : List Str) (x : Str),
      linearRoll (fun a b => some (m' a b)) x rest =
        (some (rest.foldl m' x), rest.length) := by
  intro rest
  induction rest with
  | nil => intro x; simp [linearRoll]
  | cons y ys ih => intro x; simp [linearRoll, ih]

end Lemmas

/-! ## Claim C5 -/

/-- C5: the text merger maps an empty fragment list to an error; returns
a single fragment as-is with no summarizer call; reduces 2..20 fragments
by sequential rolling pairwise merges seeded with the first fragment,
one pairwise-merge call per remaining fragment; and reduces more than 20
fragments by levelwise tree reduction pairing adjacent indices
`(2i, 2i+1)` with an odd trailing fragment carried unchanged, repeated
until one fragment remains. -/
theorem claim_C5_text_merger :
    (∀ m : Str → Str → Option Str,
        processRollingSummaryWithTimeContext m [] = (none, 0)) ∧
    (∀ (m : Str → Str → Option Str) (s : Str),
        processRollingSummaryWithTimeContext m [s] = (some s, 0)) ∧
    (∀ (m' : Str → Str → Str) (x : Str) (rest : List Str),
        rest ≠ [] → (x :: rest).length ≤ 20 →
        processRollingSummaryWithTimeContext (fun a b => some (m' a b))
          (x :: rest) = (some (rest.foldl m' x), rest.length)) ∧
    (∀ (m : Str → Str → Option Str) (l : List Str), 20 < l.length →
        processRollingSummaryWithTimeContext m l =
          processTreeAggregationWithTimeContext m l) ∧
    (∀ (m : Str → Str → Option Str) (l : List Str) (i : Nat),
        (treeLevel m l).1[i]? =
          match l[2 * i]?, l[2 * i + 1]? with
          | some a, some b => some ((m a b).getD (a ++ lit "\n\n" ++ b))
          | some a, none => some a
          | none, _ => none) ∧
    (∀ (m : Str → Str → Option Str) (l : List Str), l ≠ [] →
        ∃ r, (processTreeAggregationWithTimeContext m l).1 = some r) := by
  refine ⟨?_, ?_, ?_, ?_, ?_, ?_⟩
  · intro m; simp [processRollingSummaryWithTimeContext]
  · intro m s; simp [processRollingSummaryWithTimeContext]
  · intro m' x rest hne hle
    have hlen1 : (x :: rest).length ≠ 1 := by
      cases rest with
      | nil => exact absurd rfl hne
      | cons y ys => simp
    have hgt : ¬ 20 < (x :: rest).length := by omega
    simp only [processRollingSummaryWithTimeContext, if_neg, hlen1, hgt,
      List.cons_ne_self, ite_false, if_false]
    exact linearRoll_total m' rest x
  · intro m l hgt
    have hne : l ≠ [] := by
      intro h; rw [h] at hgt; simp at hgt
    have hlen1 : l.length ≠ 1 := by omega
    rw [processRollingSummaryWithTimeContext.eq_def, if_neg hne,
      if_neg hlen1, if_pos hgt]
  · exact treeLevel_get
  · exact fun m l h => treeAgg_complete m l h

/-- C5 witness: the theorem applied at a concrete 3-fragment list
(linear regime) and a concrete 21-fragment list (tree regime). -/
theorem claim_C5_text_merger_witness :
    processRollingSummaryWithTimeContext (fun a b => some (mCat a b))
      [lit "a", lit "b", lit "c"] =
      (some ([lit "b", lit "c"].foldl mCat (lit "a")), 2) ∧
    processRollingSummaryWithTimeContext mFail
      (List.replicate 21 (lit "x")) =
      processTreeAggregationWithTimeContext mFail
        (List.replicate 21 (lit "x")) ∧
    ∃ r, (processTreeAggregationWithTimeContext mFail
      (List.replicate 21 (lit "x"))).1 = some r := by
  refine ⟨?_, ?_, ?_⟩
  · exact claim_C5_text_merger.2.2.1 mCat (lit "a") [lit "b", lit "c"]
      (by decide) (by decide)
  · exact claim_C5_text_merger.2.2.2.1 mFail _ (by decide)
  · exact claim_C5_text_merger.2.2.2.2.2 mFail _ (by decide)

/-! ## Claim C9 -/

/-- C9: in tree reduction, a pair of fragments at adjacent indices
`(2i, 2i+1)` whose pairwise merge fails yields the raw concatenation of
the two fragments (joined by a blank line), and the reduction as a whole
still completes and returns a merged result rather than propagating the
error. -/
theorem claim_C9_tree_merge_fallback :
    (∀ (m : Str → Str → Option Str) (l : List Str) (i : Nat) (a b : Str),
        l[2 * i]? = some a → l[2 * i + 1]? = some b → m a b = none →
        (treeLevel m l).1[i]? = some (a ++ lit "\n\n" ++ b)) ∧
    (∀ (m : Str → Str → Option Str) (l : List Str), l ≠ [] →
        ∃ r, (processTreeAggregationWithTimeContext m l).1 = some r) := by
  constructor
  · intro m l i a b ha hb hm
    have := treeLevel_get m l i
    rw [ha, hb] at this
    simp only at this
    rw [hm] at this
    simpa using this
  · exact fun m l h => treeAgg_complete m l h

/-- C9 witness: the theorem applied to a concrete failing merge on a
two-fragment list, and completion on a concrete 25-fragment list. -/
theorem claim_C9_tree_merge_fallback_witness :
    (treeLevel mFail [lit "a", lit "b"]).1[0]? =
      some (lit "a" ++ lit "\n\n" ++ lit "b") ∧
    ∃ r, (processTreeAggregationWithTimeContext mFail
      (List.replicate 25 (lit "y"))).1 = some r := by
  constructor
  · exact claim_C9_tree_merge_fallback.1 mFail [lit "a", lit "b"] 0
      (lit "a") (lit "b") (by decide) (by decide) rfl
  · exact claim_C9_tree_merge_fallback.2 mFail _ (by decide)

/-! ## Claim C4 -/

/-- C4: for every period type and anchor whose theoretical calendar
window contains zero lower-level summaries and zero observations, a
generation run returns without writing any record, makes no external
call, leaves the store unchanged, and a subsequent `Get` for any key
(in particular the period key) returns what it returned before. -/
theorem claim_C4_no_data_skip (w : WorkHoursConfig) (an : AnalyzerM)
    (oracle : Oracles) (order : List Str → List Str)
    (clockNow anchor : Int) (periodType : Str)
    (forceFromScreenshots isManual : Bool) (st : Store)
    (hq : ∀ tS tE key, theoreticalRange anchor periodType =
      some (tS, tE, key) →
      queryPeriodSummaries st (getLowerLevelPeriodType periodType) tS tE
        = [] ∧
      queryByDateRange st tS tE = []) :
    (generateSinglePeriodSummary w an oracle order clockNow anchor
      periodType forceFromScreenshots isManual st).saved = [] ∧
    (generateSinglePeriodSummary w an oracle order clockNow anchor
      periodType forceFromScreenshots isManual st).store = st ∧
    (generateSinglePeriodSummary w an oracle order clockNow anchor
      periodType forceFromScreenshots isManual st).extCalls = 0 ∧
    (generateSinglePeriodSummary w an oracle order clockNow anchor
      periodType forceFromScreenshots isManual st).reportWrites = [] ∧
    (∀ k, getPeriodSummary (generateSinglePeriodSummary w an oracle order
      clockNow anchor periodType forceFromScreenshots isManual st).store k
      = getPeriodSummary st k) := by
  unfold generateSinglePeriodSummary generateSinglePeriodSummaryCore
  cases hth : theoreticalRange anchor periodType with
  | none => simp [earlyResult]
  | some trip =>
    obtain ⟨tS, tE, key⟩ := trip
    obtain ⟨h1, h2⟩ := hq tS tE key hth
    have har : determineActualTimeRange w st periodType tS tE =
        (tS, tE, false) := by
      simp [determineActualTimeRange, h1, h2]
    simp only [har]
    split_ifs <;> simp_all [earlyResult]

/-- C4 witness: the theorem applied to the empty store at a concrete
hour anchor; the run writes nothing and `Get` stays absent. -/
theorem claim_C4_no_data_skip_witness :
    (generateSinglePeriodSummary wAll anDet oracleId id
      (mkDate 2025 11 21 10 0 0) (mkDate 2025 11 21 10 0 0) (lit "hour")
      false true storeEmpty).saved = [] ∧
    getPeriodSummary (generateSinglePeriodSummary wAll anDet oracleId id
      (mkDate 2025 11 21 10 0 0) (mkDate 2025 11 21 10 0 0) (lit "hour")
      false true storeEmpty).store (lit "2025-11-21-10") = none := by
  have h := claim_C4_no_data_skip wAll anDet oracleId id
    (mkDate 2025 11 21 10 0 0) (mkDate 2025 11 21 10 0 0) (lit "hour")
    false true storeEmpty (by intro tS tE key hth; exact ⟨rfl, rfl⟩)
  refine ⟨h.1, ?_⟩
  rw [h.2.2.2.2 (lit "2025-11-21-10")]
  rfl

/-! ## Claim C7 -/

/-- A record whose summary text is the placeholder sentinel never counts
as valid content. -/
theorem hasValidContent_placeholder (r : PeriodSummaryR)
    (h : r.summary = placeholderLit) : hasValidContent r = false := by
  simp [hasValidContent, h]

/-- The persistence tail upserts exactly one record; when that record is
the placeholder it carries no ids, and the tail writes no report file and
deletes none. -/
theorem persistStep_placeholder_prop (order : List Str → List Str)
    (p : ProceedData) :
    ∀ r ∈ (persistStep order p).saved, r.summary = placeholderLit →
      r.screenshots = [] ∧ (persistStep order p).saved = [r] ∧
      (persistStep order p).reportWrites = [] ∧
      (persistStep order p).reportDeletes = [] := by
  intro r hr hsum
  by_cases hv : hasValidContent
      ⟨p.periodKey, p.periodType, p.startTime, p.endTime,
       joinChar ',' (order p.idList), p.summaryText, p.analysisText⟩
  · simp only [persistStep, hv, Bool.not_true, Bool.false_eq_true,
      if_false, List.mem_singleton] at hr
    subst hr
    simp only at hsum
    rw [hasValidContent_placeholder _ hsum] at hv
    cases hv
  · simp only [persistStep, hv, Bool.not_false, if_true,
      List.mem_singleton] at hr
    subst hr
    simp [persistStep, hv]

/-- C7 counterexample: over `storeC7` (data present, all of it
desktop-classified, and a stale report artifact on disk for the key) the
run persists the placeholder but the stale artifact is still present
afterwards, contradicting the claimed deletion. -/
theorem claim_C7_counterexample :
    ¬ (∀ r ∈ runC7.saved, r.summary = placeholderLit →
        (lit "2025-11-21-10-00") ∉ runC7.store.reportFiles) := by
  decide

/-- C7 amended: whenever period generation finds data but the final
content is not valid, it upserts exactly one record, the placeholder,
whose summary text is the sentinel and whose contributing-observation-id
set is empty, and it writes no new report file; it does not delete a
stale report artifact for the key (no delete is performed at all). -/
theorem claim_C7_placeholder_persistence (w : WorkHoursConfig)
    (an : AnalyzerM) (oracle : Oracles) (order : List Str → List Str)
    (clockNow anchor : Int) (periodType : Str)
    (forceFromScreenshots isManual : Bool) (st : Store) :
    ∀ r ∈ (generateSinglePeriodSummary w an oracle order clockNow anchor
        periodType forceFromScreenshots isManual st).saved,
      r.summary = placeholderLit →
      r.screenshots = [] ∧
      (generateSinglePeriodSummary w an oracle order clockNow anchor
        periodType forceFromScreenshots isManual st).saved = [r] ∧
      (generateSinglePeriodSummary w an oracle order clockNow anchor
        periodType forceFromScreenshots isManual st).reportWrites = [] ∧
      (generateSinglePeriodSummary w an oracle order clockNow anchor
        periodType forceFromScreenshots isManual st).reportDeletes
        = [] := by
  intro r
  unfold generateSinglePeriodSummary
  cases generateSinglePeriodSummaryCore w an oracle clockNow anchor
      periodType forceFromScreenshots isManual st with
  | inl e => intro hr; simp [earlyResult] at hr
  | inr p => exact persistStep_placeholder_prop order p r

/-- C7 witness: the amended theorem applied to the concrete run over
`storeC7`, whose saved record is the placeholder. -/
theorem claim_C7_placeholder_persistence_witness :
    runC7.reportWrites = [] ∧ runC7.reportDeletes = [] ∧
    (∃ r, runC7.saved = [r] ∧ r.summary = placeholderLit ∧
      r.screenshots = []) := by
  have h := claim_C7_placeholder_persistence wAll anDet oracleId id
    (mkDate 2025 11 21 10 0 0) (mkDate 2025 11 21 10 0 0)
    (lit "fifteenmin") false true storeC7
    ⟨lit "2025-11-21-10-00", lit "fifteenmin", mkDate 2025 11 21 10 0 0,
     mkDate 2025 11 21 10 14 59, [], placeholderLit, []⟩
    (by decide) (by decide)
  exact ⟨h.2.2.1, h.2.2.2, ⟨_, h.2.1, by decide, h.1⟩⟩

/-! ## Claim C3 -/

/-- Membership is preserved by sorted insertion. -/
theorem mem_insertSorted {α : Type} (f : α → Int) (x y : α) :
    ∀ l : List α, y ∈ insertSorted f x l ↔ y = x ∨ y ∈ l := by
  intro l
  induction l with
  | nil => simp [insertSorted]
  | cons z zs ih =>
    by_cases hz : f x ≤ f z
    · simp [insertSorted, hz]
    · simp only [insertSorted, hz, if_false, List.mem_cons, ih]
      tauto

/-- Sorting preserves membership. -/
theorem mem_sortByKey {α : Type} (f : α → Int) (x : α) :
    ∀ l : List α, x ∈ sortByKey f l ↔ x ∈ l := by
  intro l
  induction l with
  | nil => simp [sortByKey]
  | cons z zs ih =>
    simp only [sortByKey, List.foldr_cons, List.mem_cons]
    rw [mem_insertSorted]
    simp only [sortByKey] at ih
    rw [ih]

/-- Every result of a period-summary query is a stored record. -/
theorem mem_queryPeriodSummaries (st : Store) (pt : Str) (s e : Int)
    (r : PeriodSummaryR) (h : r ∈ queryPeriodSummaries st pt s e) :
    r ∈ st.periodSummaries := by
  unfold queryPeriodSummaries at h
  rw [mem_sortByKey] at h
  exact List.mem_of_mem_filter h

/-- A store without screenshots answers every range query with the empty
list. -/
theorem queryByDateRange_empty (st : Store) (hs : st.screenshots = [])
    (a b : Int) : queryByDateRange st a b = [] := by
  simp [queryByDateRange, hs, sortByKey]

/-- The child filtering loop ignores every placeholder child. -/
theorem collect_placeholders (acc : CollectAcc) :
    ∀ ls : List PeriodSummaryR,
      (∀ s ∈ ls, s.summary = placeholderLit) →
      ls.foldl collectChild acc = acc := by
  intro ls
  induction ls generalizing acc with
  | nil => intro _; rfl
  | cons x xs ih =>
    intro hall
    have hx : x.summary = placeholderLit := hall x (by simp)
    have hstep : collectChild acc x = acc := by
      simp [collectChild, hx]
    rw [List.foldl_cons, hstep]
    exact ih acc fun s hs => hall s (by simp [hs])

/-- Over an all-placeholder lower level the aggregation block is a
no-op: it exits early, calls nothing, and changes nothing. -/
theorem runLowerCore_all_placeholders (an : AnalyzerM) (oracle : Oracles)
    (periodKey periodType lowerLevelType : Str) (startTime endTime : Int)
    (isManual : Bool) (st : Store)
    (hall : ∀ s ∈ st.periodSummaries, s.summary = placeholderLit)
    (hshots : st.screenshots = []) :
    runLowerCore an oracle periodKey periodType lowerLevelType startTime
      endTime false isManual st = .inl ⟨st, 0, [], false⟩ := by
  have hq : ∀ s ∈ queryPeriodSummaries st lowerLevelType startTime
      endTime, s.summary = placeholderLit :=
    fun s hs => hall s (mem_queryPeriodSummaries _ _ _ _ _ hs)
  by_cases hnil : queryPeriodSummaries st lowerLevelType startTime
      endTime = []
  · simp [runLowerCore, hnil, queryByDateRange_empty st hshots,
      collect_placeholders]
  · have hfold := collect_placeholders ⟨[], [], [], []⟩ _ hq
    simp [runLowerCore, hnil, hfold]

/-- C3 counterexample: `storeC3` holds the placeholder for the
fifteen-minute key `2025-11-21-10-00` together with a screenshot whose
stored analysis is valid work; a subsequent non-forced run for that very
key calls the external summarizer once, contradicting the claimed
absence of external calls. -/
theorem claim_C3_counterexample :
    ¬ ((getPeriodSummary storeC3 (lit "2025-11-21-10-00")).map
        (·.summary) = some placeholderLit → runC3.extCalls = 0) := by
  decide

/-- C3 amended: a placeholder is stable when it appears as a child: in a
run whose stored period summaries are all placeholders (and with no
stored observations), a non-forced run of any period type skips every
placeholder child, performs no external calls, writes nothing and leaves
the store unchanged.  A direct run for the placeholder's own key,
however, recomputes from the stored data and may call the summarizer
(see the counterexample). -/
theorem claim_C3_placeholder_child_stability (w : WorkHoursConfig)
    (an : AnalyzerM) (oracle : Oracles) (order : List Str → List Str)
    (clockNow anchor : Int) (periodType : Str) (isManual : Bool)
    (st : Store)
    (hall : ∀ s ∈ st.periodSummaries, s.summary = placeholderLit)
    (hshots : st.screenshots = []) :
    (generateSinglePeriodSummary w an oracle order clockNow anchor
      periodType false isManual st).saved = [] ∧
    (generateSinglePeriodSummary w an oracle order clockNow anchor
      periodType false isManual st).extCalls = 0 ∧
    (generateSinglePeriodSummary w an oracle order clockNow anchor
      periodType false isManual st).store = st ∧
    (generateSinglePeriodSummary w an oracle order clockNow anchor
      periodType false isManual st).reportWrites = [] := by
  unfold generateSinglePeriodSummary generateSinglePeriodSummaryCore
  cases hth : theoreticalRange anchor periodType with
  | none => simp [earlyResult]
  | some trip =>
    obtain ⟨tS, tE, key⟩ := trip
    dsimp only
    split_ifs with h1 h2 h3
    · simp [earlyResult]
    · simp [earlyResult]
    · rw [runLowerCore_all_placeholders an oracle key periodType
        (getLowerLevelPeriodType periodType) _ _ isManual st hall hshots]
      simp [earlyResult]
    · simp [runScreenshotCore, queryByDateRange_empty st hshots,
        earlyResult]

/-- C3 witness: the amended theorem applied to the store holding only
the fifteen-minute placeholder, for an hour run over it. -/
theorem claim_C3_placeholder_child_stability_witness :
    (generateSinglePeriodSummary wAll anDet oracleId id
      (mkDate 2025 11 21 10 0 0) (mkDate 2025 11 21 10 0 0) (lit "hour")
      false true storeAllPlaceholder).saved = [] ∧
    (generateSinglePeriodSummary wAll anDet oracleId id
      (mkDate 2025 11 21 10 0 0) (mkDate 2025 11 21 10 0 0) (lit "hour")
      false true storeAllPlaceholder).extCalls = 0 := by
  have h := claim_C3_placeholder_child_stability wAll anDet oracleId id
    (mkDate 2025 11 21 10 0 0) (mkDate 2025 11 21 10 0 0) (lit "hour")
    true storeAllPlaceholder (by decide) (by decide)
  exact ⟨h.1, h.2.1⟩

/-! ## Claim C6 -/

/-- C6: the hour re-roll retains failure-marked analyses.  Over
`storeC6` (one observation whose stored analysis is the failure marker
`Analysis failed: timeout`) the batch-side hour rollup stores exactly
that failure text as the hour summary, while the filter the
specification describes (nonempty, not failure-marked, not
desktop/lock-screen) selects nothing, so the claimed newline-join is
empty.  The cause: `updateHourSummary` tests equality with the bare
string `Analysis failed` although the marker is always written with a
suffix (`Analysis failed: %v`) and every other consumer matches it by
prefix. -/
theorem claim_C6_failure_marker_retained :
    (updateHourSummary id storeC6 shotC6).map
      (fun st => (getHourSummary st (lit "2025-11-21-10")).map
        (·.summary)) =
      some (some (lit "Analysis failed: timeout")) ∧
    specHourTexts (getScreenshotsByHourKey storeC6 (lit "2025-11-21-10"))
      = [] ∧
    startsWith (lit "Analysis failed: timeout") (lit "Analysis failed")
      = true := by
  decide

/-! ## Claim C10 -/

/-- The reconciliation fold saves exactly the missing filesystem
records, rewritten by the key-correction function. -/
theorem validateFold_characterization (dbKeys : List Str)
    (periodType : Str) :
    ∀ (l saves : List PeriodSummaryR),
      l.foldl
        (fun saves fsSummary =>
          if !dbKeys.contains fsSummary.periodKey then
            let correctedKey :=
              buildPeriodKeyFromStartTime fsSummary.startTime periodType
            let finalKey :=
              if correctedKey ≠ [] && correctedKey ≠ fsSummary.periodKey
              then correctedKey
              else fsSummary.periodKey
            saves ++ [{ fsSummary with periodKey := finalKey }]
          else saves) saves =
      saves ++
        (l.filter fun f => !dbKeys.contains f.periodKey).map fun f =>
          { f with periodKey :=
              if buildPeriodKeyFromStartTime f.startTime periodType ≠ []
                 && buildPeriodKeyFromStartTime f.startTime periodType
                    ≠ f.periodKey
              then buildPeriodKeyFromStartTime f.startTime periodType
              else f.periodKey } := by
  intro l
  induction l with
  | nil => intro saves; simp
  | cons x xs ih =>
    intro saves
    by_cases hx : dbKeys.contains x.periodKey
    · simp only [List.foldl_cons, List.filter_cons, hx, Bool.not_true,
        Bool.false_eq_true, if_false]
      exact ih saves
    · simp only [List.foldl_cons, List.filter_cons, hx,
        Bool.not_false, if_true, List.map_cons]
      rw [ih]
      simp

/-- A fold whose step ignores every element of the list is the
identity. -/
theorem foldl_skip_all {α β : Type} (step : List β → α → List β)
    (l : List α) (saves : List β)
    (h : ∀ acc x, x ∈ l → step acc x = acc) :
    l.foldl step saves = saves := by
  induction l generalizing saves with
  | nil => rfl
  | cons y ys ih =>
    rw [List.foldl_cons, h saves y (by simp)]
    exact ih saves fun acc x hx => h acc x (by simp [hx])

/-- C10 counterexample: (a) in fix mode (without rebuild), a
content-store day file with no metadata record produces zero saved
records — both sides of the comparison are read from the same hybrid
report storage, so the claimed single created record does not appear;
(b) in rebuild mode, a content-store work-segment file is saved under
its path-derived key, not a key re-derived from its recorded start time
(the re-derivation returns the empty string for work-segment). -/
theorem claim_C10_counterexample :
    ¬ ((runValidateType false true storeC10a (lit "day")
        (mkDate 2020 1 1 0 0 0) (mkDate 2026 1 1 0 0 0)).length = 1) ∧
    ¬ (∀ r ∈ runValidateType true false storeC10b (lit "work-segment")
        (mkDate 2020 1 1 0 0 0) (mkDate 2026 1 1 0 0 0),
        r.periodKey =
          buildPeriodKeyFromStartTime r.startTime
            (lit "work-segment")) := by
  constructor
  · decide
  · decide

/-- C10 amended: in fix mode without rebuild no metadata-missing file is
ever detected (both the database side and the filesystem side of the
reconciliation are read from the same hybrid report storage), so no
record is created; in rebuild mode the saved records are exactly one per
content-store file whose path-derived key has no metadata record, and
each saved record's key is the key re-derived from the file's recorded
start time whenever the period type has a derivable key (every scanned
type except work-segment), otherwise the path-derived key is kept. -/
theorem claim_C10_consistency_rebuild (fix : Bool) (st : Store)
    (periodType : Str) (s e : Int) :
    runValidateType false fix st periodType s e = [] ∧
    runValidateType true fix st periodType s e =
      ((fileSystemQueryPeriodSummaries st periodType s e).filter fun f =>
        !((reportStorageQueryPeriodSummaries st periodType s e).map
          (·.periodKey)).contains f.periodKey).map (fun f =>
        { f with periodKey :=
            if buildPeriodKeyFromStartTime f.startTime periodType ≠ []
            then buildPeriodKeyFromStartTime f.startTime periodType
            else f.periodKey }) := by
  constructor
  · simp only [runValidateType, if_false, Bool.or_false]
    apply foldl_skip_all
    intro acc x hx
    simp only [Bool.false_eq_true, if_false] at hx
    have hc : ((reportStorageQueryPeriodSummaries st periodType s e).map
        (·.periodKey)).contains x.periodKey = true :=
      List.elem_eq_true_of_mem (List.mem_map_of_mem _ hx)
    simp only [hc, Bool.not_true, Bool.false_eq_true, if_false]
  · simp only [runValidateType, Bool.or_true, if_true]
    rw [validateFold_characterization]
    simp only [List.nil_append]
    apply List.map_congr_left
    intro f hf
    by_cases h1 : buildPeriodKeyFromStartTime f.startTime periodType = []
    · simp [h1]
    · by_cases h2 : buildPeriodKeyFromStartTime f.startTime periodType =
          f.periodKey
      · simp [h1, h2]
      · simp [h1, h2]

/-! ## String lemmas for the id-set analysis -/

/-- `splitOnChar` never returns the empty list. -/
theorem splitOnChar_ne_nil (c : Char) (s : Str) : splitOnChar c s ≠ [] := by
  cases s with
  | nil => simp [splitOnChar]
  | cons x xs =>
    simp only [splitOnChar]
    split
    · simp
    · split <;> simp

/-- Splitting distributes over an explicit separator occurrence. -/
theorem splitOnChar_append_cons (c : Char) (a b : Str) :
    splitOnChar c (a ++ c :: b) = splitOnChar c a ++ splitOnChar c b := by
  induction a with
  | nil => simp [splitOnChar]
  | cons x xs ih =>
    obtain ⟨y, ys, hy⟩ :=
      List.exists_cons_of_ne_nil (splitOnChar_ne_nil c xs)
    by_cases hx : x = c
    · subst hx; simp [splitOnChar, ih]
    · simp [splitOnChar, hx, ih, hy]

/-- The parsed id set of a comma-join splits off its first component. -/
theorem idsOf_join_cons (a b : Str) (l : List Str) :
    idsOf (joinChar ',' (a :: b :: l)) =
      idsOf a ++ idsOf (joinChar ',' (b :: l)) := by
  rw [show joinChar ',' (a :: b :: l) = a ++ ',' :: joinChar ',' (b :: l)
    from rfl]
  unfold idsOf
  rw [splitOnChar_append_cons, List.map_append, List.filter_append]

/-- Membership in the parsed id set of a comma-join is membership in the
parsed id set of one of the joined components. -/
theorem mem_idsOf_join (x : Str) (l : List Str) :
    x ∈ idsOf (joinChar ',' l) ↔ ∃ y ∈ l, x ∈ idsOf y := by
  induction l with
  | nil =>
    rw [show idsOf (joinChar ',' ([] : List Str)) = [] from rfl]
    simp
  | cons a l ih =>
    cases l with
    | nil =>
      rw [show joinChar ',' [a] = a from rfl]
      simp
    | cons b l' =>
      rw [idsOf_join_cons]
      simp only [List.mem_append, ih, List.mem_cons]
      constructor
      · rintro (h | ⟨y, hy, hx⟩)
        · exact ⟨a, Or.inl rfl, h⟩
        · exact ⟨y, Or.inr hy, hx⟩
      · rintro ⟨y, (rfl | hy), hx⟩
        · exact Or.inl hx
        · exact Or.inr ⟨y, hy, hx⟩

/-- Permuting the joined components does not change the parsed id set. -/
theorem idsOf_join_toFinset_perm (l l' : List Str)
    (h : List.Perm l l') :
    (idsOf (joinChar ',' l)).toFinset =
      (idsOf (joinChar ',' l')).toFinset := by
  ext x
  simp only [List.mem_toFinset, mem_idsOf_join]
  constructor
  · rintro ⟨y, hy, hx⟩; exact ⟨y, h.mem_iff.mp hy, hx⟩
  · rintro ⟨y, hy, hx⟩; exact ⟨y, h.mem_iff.mpr hy, hx⟩

/-- `trimSpace` written through Mathlib's `rdropWhile`. -/
theorem trimSpace_eq_rdrop (s : Str) :
    trimSpace s =
      List.rdropWhile isSpaceChar (List.dropWhile isSpaceChar s) := rfl

/-- `trimSpace` is idempotent. -/
theorem trimSpace_idem (s : Str) :
    trimSpace (trimSpace s) = trimSpace s := by
  rw [trimSpace_eq_rdrop, trimSpace_eq_rdrop]
  have h1 : List.dropWhile isSpaceChar
      (List.rdropWhile isSpaceChar (List.dropWhile isSpaceChar s)) =
      List.rdropWhile isSpaceChar (List.dropWhile isSpaceChar s) := by
    rw [List.dropWhile_eq_self_iff]
    intro hl hp
    obtain ⟨u, hu⟩ :=
      List.rdropWhile_prefix isSpaceChar (List.dropWhile isSpaceChar s)
    obtain ⟨b, r', hr⟩ := List.exists_cons_of_ne_nil
      (List.ne_nil_of_length_pos hl)
    have ht : 0 < (List.dropWhile isSpaceChar s).length := by
      rw [← hu, List.length_append]
      omega
    have hno := List.dropWhile_get_zero_not isSpaceChar s ht
    have h0 : (List.rdropWhile isSpaceChar
        (List.dropWhile isSpaceChar s))[0]? = some b := by
      rw [hr]; simp
    rw [List.getElem?_eq_getElem hl] at h0
    have hbe := Option.some.inj h0
    have hb : isSpaceChar b = true := by
      simpa [List.get_eq_getElem, hbe] using hp
    apply hno
    have h0' : (List.dropWhile isSpaceChar s)[0]? = some b := by
      rw [← hu, hr]; simp
    rw [List.getElem?_eq_getElem ht] at h0'
    have hbe' := Option.some.inj h0'
    simpa [List.get_eq_getElem, hbe'] using hb
  rw [h1, List.rdropWhile_idempotent]

/-- Trimming only removes characters. -/
theorem mem_of_mem_trimSpace {x : Char} {s : Str}
    (h : x ∈ trimSpace s) : x ∈ s := by
  rw [trimSpace_eq_rdrop] at h
  exact (List.dropWhile_suffix isSpaceChar).subset
    ((List.rdropWhile_prefix isSpaceChar _).subset h)

/-! ## Claim C1: idempotence of period generation -/

/-- `hasValidContent` does not read the serialized id list. -/
theorem hasValidContent_ignores_ids (k t : Str) (a b : Int)
    (s1 s2 su an : Str) :
    hasValidContent ⟨k, t, a, b, s1, su, an⟩ =
      hasValidContent ⟨k, t, a, b, s2, su, an⟩ := rfl

/-- The persistence tail produces, for two valid map-iteration orders,
the same effects and records identical except possibly in the order of
the serialized id list. -/
theorem persistStep_proj (o1 o2 : List Str → List Str) (p : ProceedData)
    (h1 : List.Perm (o1 p.idList) p.idList)
    (h2 : List.Perm (o2 p.idList) p.idList) :
    (persistStep o1 p).saved.map projNoIDs =
      (persistStep o2 p).saved.map projNoIDs ∧
    (persistStep o1 p).saved.map idFinset =
      (persistStep o2 p).saved.map idFinset ∧
    (persistStep o1 p).extCalls = (persistStep o2 p).extCalls ∧
    (persistStep o1 p).reportWrites = (persistStep o2 p).reportWrites ∧
    (persistStep o1 p).reportDeletes = (persistStep o2 p).reportDeletes ∧
    (persistStep o1 p).usedChildren = (persistStep o2 p).usedChildren := by
  have hvc := hasValidContent_ignores_ids p.periodKey p.periodType
    p.startTime p.endTime (joinChar ',' (o1 p.idList))
    (joinChar ',' (o2 p.idList)) p.summaryText p.analysisText
  by_cases hv : hasValidContent
      ⟨p.periodKey, p.periodType, p.startTime, p.endTime,
       joinChar ',' (o2 p.idList), p.summaryText, p.analysisText⟩ = true
  · refine ⟨?_, ?_, ?_, ?_, ?_, ?_⟩ <;>
      simp only [persistStep, savePeriodSummaryReportM, hvc, hv,
        Bool.not_true, Bool.false_eq_true, if_false, List.map_cons,
        List.map_nil, projNoIDs, idFinset]
    rw [idsOf_join_toFinset_perm (o1 p.idList) (o2 p.idList)
      (h1.trans h2.symm)]
  · rw [Bool.not_eq_true] at hv
    refine ⟨?_, ?_, ?_, ?_, ?_, ?_⟩ <;>
      simp only [persistStep, hvc, hv, Bool.not_false, if_true]

/-- C1 counterexample: the identity and the reversal are both valid Go
map iteration orders over the two-element id set, and the two runs they
induce persist different serialized id strings: the persisted record is
not byte-identical across reruns with identical inputs. -/
theorem claim_C1_counterexample :
    List.Perm (List.reverse [lit "a", lit "b"]) [lit "a", lit "b"] ∧
    (runC1 id).saved.map (fun r => r.screenshots) ≠
      (runC1 List.reverse).saved.map (fun r => r.screenshots) :=
  ⟨List.reverse_perm _, by decide⟩

/-- C1 (corrected): rerunning period generation on the same store (the
same stored observations and lower-level summaries) with a deterministic
summarizer persists a record with byte-identical period key, period type,
time range, summary text and analysis text, and with an identical
contributing-observation-id set; but only the id set, not its serialized
byte representation, is reproducible, because the id list is produced by
Go map iteration, whose order is unspecified (executor.go:797-803). -/
theorem claim_C1_idempotence_modulo_id_order (w : WorkHoursConfig)
    (an : AnalyzerM) (oracle : Oracles) (o1 o2 : List Str → List Str)
    (clockNow anchor : Int) (periodType : Str) (force isManual : Bool)
    (st : Store) (h1 : ∀ l, List.Perm (o1 l) l)
    (h2 : ∀ l, List.Perm (o2 l) l) :
    (generateSinglePeriodSummary w an oracle o1 clockNow anchor periodType
        force isManual st).saved.map projNoIDs =
      (generateSinglePeriodSummary w an oracle o2 clockNow anchor
        periodType force isManual st).saved.map projNoIDs ∧
    (generateSinglePeriodSummary w an oracle o1 clockNow anchor periodType
        force isManual st).saved.map idFinset =
      (generateSinglePeriodSummary w an oracle o2 clockNow anchor
        periodType force isManual st).saved.map idFinset := by
  unfold generateSinglePeriodSummary
  cases generateSinglePeriodSummaryCore w an oracle clockNow anchor
      periodType force isManual st with
  | inl e => exact ⟨rfl, rfl⟩
  | inr p =>
    obtain ⟨hA, hB, _⟩ :=
      persistStep_proj o1 o2 p (h1 p.idList) (h2 p.idList)
    exact ⟨hA, hB⟩

/-- Witness for C1: a concrete hour run over two valid children, with the
identity and the reversal as the two map-iteration orders. -/
theorem claim_C1_idempotence_modulo_id_order_witness :
    (generateSinglePeriodSummary wAll anDet oracleId id
        (mkDate 2025 11 21 10 0 0) (mkDate 2025 11 21 10 0 0) (lit "hour")
        false true storeC1).saved.map projNoIDs =
      (generateSinglePeriodSummary wAll anDet oracleId List.reverse
        (mkDate 2025 11 21 10 0 0) (mkDate 2025 11 21 10 0 0) (lit "hour")
        false true storeC1).saved.map projNoIDs ∧
    (generateSinglePeriodSummary wAll anDet oracleId id
        (mkDate 2025 11 21 10 0 0) (mkDate 2025 11 21 10 0 0) (lit "hour")
        false true storeC1).saved.map idFinset =
      (generateSinglePeriodSummary wAll anDet oracleId List.reverse
        (mkDate 2025 11 21 10 0 0) (mkDate 2025 11 21 10 0 0) (lit "hour")
        false true storeC1).saved.map idFinset :=
  claim_C1_idempotence_modulo_id_order wAll anDet oracleId id List.reverse
    (mkDate 2025 11 21 10 0 0) (mkDate 2025 11 21 10 0 0) (lit "hour")
    false true storeC1 (fun l => List.Perm.refl l)
    (fun l => List.reverse_perm l)

/-! ## Claim C2: observation-set containment -/

/-- No split piece contains the separator. -/
theorem mem_splitOnChar_not_sep (c : Char) :
    ∀ (s : Str) (t : Str), t ∈ splitOnChar c s → c ∉ t := by
  intro s
  induction s with
  | nil =>
    intro t ht
    simp [splitOnChar] at ht
    simp [ht]
  | cons x xs ih =>
    intro t ht
    by_cases hx : x = c
    · rw [hx] at ht
      have hsp : splitOnChar c (c :: xs) = [] :: splitOnChar c xs := by
        simp [splitOnChar]
      rw [hsp, List.mem_cons] at ht
      rcases ht with rfl | ht
      · simp
      · exact ih t ht
    · obtain ⟨y, ys, hy⟩ :=
        List.exists_cons_of_ne_nil (splitOnChar_ne_nil c xs)
      have hsp : splitOnChar c (x :: xs) = (x :: y) :: ys := by
        simp [splitOnChar, hx, hy]
      rw [hsp, List.mem_cons] at ht
      rcases ht with rfl | ht
      · intro hmem
        rcases List.mem_cons.mp hmem with rfl | hmem
        · exact hx rfl
        · exact ih y (hy ▸ List.mem_cons_self y ys) hmem
      · exact ih t (hy ▸ List.mem_cons_of_mem y ht)

/-- Splitting a separator-free string is trivial. -/
theorem splitOnChar_no_sep (c : Char) (y : Str) (h : c ∉ y) :
    splitOnChar c y = [y] := by
  induction y with
  | nil => rfl
  | cons x xs ih =>
    have hx : ¬ x = c := fun he => h (he ▸ List.mem_cons_self x xs)
    have hxs : c ∉ xs := fun hm => h (List.mem_cons_of_mem x hm)
    simp [splitOnChar, hx, ih hxs]

/-- Membership in a parsed id set, characterized by split pieces. -/
theorem mem_idsOf_iff (x : Str) (s : Str) :
    x ∈ idsOf s ↔
      ∃ t ∈ splitOnChar ',' s, x = trimSpace t ∧ x ≠ [] := by
  simp only [idsOf, List.mem_filter, List.mem_map, decide_eq_true_eq]
  constructor
  · rintro ⟨⟨t, ht, rfl⟩, hne⟩
    exact ⟨t, ht, rfl, hne⟩
  · rintro ⟨t, ht, rfl, hne⟩
    exact ⟨⟨t, ht, rfl⟩, hne⟩

/-- The parsed id set of a single well-formed token. -/
theorem idsOf_single (y : Str) (hy : trimSpace y = y) (hne : y ≠ [])
    (hc : ',' ∉ y) : idsOf y = [y] := by
  unfold idsOf
  rw [splitOnChar_no_sep ',' y hc]
  simp [hy, hne]

/-- Elements produced by the deduplicating fold of `addIDs`: either old,
or a nonempty trimmed piece of the added screenshot list. -/
theorem addIDs_fold_mem (y : Str) :
    ∀ (pieces : List Str) (acc : List Str),
      y ∈ pieces.foldl
        (fun acc idv =>
          let t := trimSpace idv
          if t ≠ [] && !acc.contains t then acc ++ [t] else acc) acc →
      y ∈ acc ∨ ∃ t ∈ pieces, y = trimSpace t ∧ trimSpace t ≠ [] := by
  intro pieces
  induction pieces with
  | nil => intro acc h; exact Or.inl h
  | cons p ps ih =>
    intro acc h
    simp only [List.foldl_cons] at h
    rcases ih _ h with hy | ⟨t, ht, rfl, hne⟩
    · by_cases hc : (trimSpace p ≠ [] && !acc.contains (trimSpace p)) = true
      · rw [show (let t := trimSpace p;
            if t ≠ [] && !acc.contains t then acc ++ [t] else acc) =
            acc ++ [trimSpace p] from by rw [if_pos hc]] at hy
        rcases List.mem_append.mp hy with hy | hy
        · exact Or.inl hy
        · have hyt : y = trimSpace p := by simpa using hy
          have hnp : trimSpace p ≠ [] := by
            rcases Bool.and_eq_true_iff.mp hc with ⟨h1, _⟩
            simpa using h1
          exact Or.inr ⟨p, List.mem_cons_self p ps, hyt, hnp⟩
      · rw [show (let t := trimSpace p;
            if t ≠ [] && !acc.contains t then acc ++ [t] else acc) =
            acc from by rw [if_neg hc]] at hy
        exact Or.inl hy
    · exact Or.inr ⟨t, List.mem_cons_of_mem p ht, rfl, hne⟩

/-- `goodAcc` is monotone in the valid-children list. -/
theorem goodAcc_mono {v v' : List PeriodSummaryR} {ids : List Str}
    (h : goodAcc v ids) (hsub : ∀ c ∈ v, c ∈ v') : goodAcc v' ids := by
  intro y hy
  obtain ⟨hwf, c, hc, hvc, hm⟩ := h y hy
  exact ⟨hwf, c, hsub c hc, hvc, hm⟩

/-- `addIDs` preserves `goodAcc` when the added screenshot list belongs
to a valid child of the list. -/
theorem goodAcc_addIDs {v : List PeriodSummaryR} {ids : List Str}
    (h : goodAcc v ids) (c : PeriodSummaryR) (hc : validChild c)
    (hcv : c ∈ v) : goodAcc v (addIDs ids c.screenshots) := by
  intro y hy
  unfold addIDs at hy
  by_cases hscr : c.screenshots ≠ []
  · rw [if_pos hscr] at hy
    rcases addIDs_fold_mem y _ ids hy with hy | ⟨t, ht, rfl, hne⟩
    · exact h y hy
    · refine ⟨⟨trimSpace_idem t, hne, ?_⟩, c, hcv, hc, ?_⟩
      · intro hmem
        exact mem_splitOnChar_not_sep ',' c.screenshots t ht
          (mem_of_mem_trimSpace hmem)
      · exact (mem_idsOf_iff _ _).mpr ⟨t, ht, rfl, hne⟩
  · rw [if_neg hscr] at hy
    exact h y hy

/-- The placeholder sentinel classifies as invalid. -/
theorem isInvalidSummary_placeholderLit :
    isInvalidSummary placeholderLit = true := by decide

/-- One collect step preserves `goodAcc`. -/
theorem collectChild_good (acc : CollectAcc) (s : PeriodSummaryR)
    (h : goodAcc acc.valids acc.ids) :
    goodAcc (collectChild acc s).valids (collectChild acc s).ids := by
  unfold collectChild
  by_cases h1 : s.summary = placeholderLit
  · rw [if_pos h1]; exact h
  · rw [if_neg h1]
    by_cases h2 : (s.summary = [] || isInvalidSummary s.summary) = true
    · rw [if_pos h2]; exact h
    · rw [if_neg h2]
      simp only [Bool.or_eq_true, decide_eq_true_eq, not_or,
        Bool.not_eq_true] at h2
      exact goodAcc_addIDs
        (goodAcc_mono h fun c hc => List.mem_append_left _ hc)
        s ⟨h2.1, h2.2, h1⟩
        (List.mem_append_right _ (List.mem_cons_self s []))

/-- The collect fold preserves `goodAcc`. -/
theorem foldl_collect_good (ls : List PeriodSummaryR) :
    ∀ acc : CollectAcc, goodAcc acc.valids acc.ids →
      goodAcc (ls.foldl collectChild acc).valids
        (ls.foldl collectChild acc).ids := by
  induction ls with
  | nil => intro acc h; exact h
  | cons s ls ih =>
    intro acc h
    simp only [List.foldl_cons]
    exact ih _ (collectChild_good acc s h)

/-- One repair step preserves `goodAcc`. -/
theorem repairStep_good (oracle : Oracles) (lt : Str) (fa im : Bool)
    (ls : List PeriodSummaryR) (acc : Store × CollectAcc × Nat) (k : Str)
    (h : goodAcc acc.2.1.valids acc.2.1.ids) :
    goodAcc (repairStep oracle lt fa im ls acc k).2.1.valids
      (repairStep oracle lt fa im ls acc k).2.1.ids := by
  obtain ⟨st, c, calls⟩ := acc
  unfold repairStep
  cases hfind : ls.find? (fun s => s.periodKey = k) with
  | none => exact h
  | some invalidSummary =>
    simp only []
    by_cases hok : (oracle.genChild lt invalidSummary.startTime fa im
        st).2.2 = true
    · rw [if_pos hok]
      cases hget : getPeriodSummary
          (oracle.genChild lt invalidSummary.startTime fa im st).1 k with
      | none => exact h
      | some regenerated =>
        dsimp only
        by_cases hg : (regenerated.summary ≠ [] &&
            !isInvalidSummary regenerated.summary) = true
        · rw [if_pos hg]
          rcases Bool.and_eq_true_iff.mp hg with ⟨hg1, hg2⟩
          have hinv : isInvalidSummary regenerated.summary = false := by
            simpa using hg2
          have hph : regenerated.summary ≠ placeholderLit := by
            intro he
            rw [he, isInvalidSummary_placeholderLit] at hinv
            exact Bool.true_eq_false.mp hinv
          exact goodAcc_addIDs
            (goodAcc_mono h fun d hd => List.mem_append_left _ hd)
            regenerated ⟨by simpa using hg1, hinv, hph⟩
            (List.mem_append_right _ (List.mem_cons_self regenerated []))
        · rw [if_neg hg]; exact h
    · rw [if_neg hok]; exact h

/-- The repair fold preserves `goodAcc`. -/
theorem foldl_repair_good (oracle : Oracles) (lt : Str) (fa im : Bool)
    (ls : List PeriodSummaryR) (keys : List Str) :
    ∀ acc : Store × CollectAcc × Nat,
      goodAcc acc.2.1.valids acc.2.1.ids →
      goodAcc ((keys.foldl (repairStep oracle lt fa im ls) acc)).2.1.valids
        ((keys.foldl (repairStep oracle lt fa im ls) acc)).2.1.ids := by
  induction keys with
  | nil => intro acc h; exact h
  | cons k ks ih =>
    intro acc h
    simp only [List.foldl_cons]
    exact ih _ (repairStep_good oracle lt fa im ls acc k h)

/-- Any run of the lower-level aggregation block that reaches the
persistence tail hands over id tokens that are well formed and traceable
to the valid non-placeholder children it used. -/
theorem runLowerCore_good (an : AnalyzerM) (oracle : Oracles)
    (periodKey periodType lowerLevelType : Str) (startTime endTime : Int)
    (force isManual : Bool) (st : Store) (p : ProceedData)
    (heq : runLowerCore an oracle periodKey periodType lowerLevelType
      startTime endTime force isManual st = .inr p) :
    goodAcc p.usedChildren p.idList := by
  unfold runLowerCore at heq
  lift_lets at heq
  extract_lets lowerSummaries genr shots validScreenshots afterGen st1 ls
    preCalls acc1 lowerLowerLevelType forceArg afterRepair st2 acc2
    repairCalls summaryTexts shouldDirectMerge merged afterFinal
    periodSummaryA callsSoFar anr periodSummaryB anrB at heq
  have hacc1 : goodAcc acc1.valids acc1.ids := by
    unfold acc1
    apply foldl_collect_good
    intro y hy
    exact absurd hy (List.not_mem_nil y)
  have hgood : goodAcc acc2.valids acc2.ids := by
    unfold acc2 afterRepair
    split
    · exact foldl_repair_good oracle lowerLevelType forceArg isManual ls
        acc1.invalidKeys (st1, acc1, 0) hacc1
    · exact hacc1
  split at heq
  · split at heq
    · exact Sum.noConfusion heq
    · injection heq with h
      subst h
      exact hgood
  · split at heq
    · exact Sum.noConfusion heq
    · injection heq with h
      subst h
      exact hgood

/-- For a period type with a lower level, a core run that reaches the
persistence tail got its data from the lower-level aggregation block, so
its id tokens are well formed and traceable to its valid non-placeholder
children. -/
theorem core_inr_good (w : WorkHoursConfig) (an : AnalyzerM)
    (oracle : Oracles) (clockNow anchor : Int) (periodType : Str)
    (force isManual : Bool) (st : Store) (p : ProceedData)
    (hlow : getLowerLevelPeriodType periodType ≠ [])
    (heq : generateSinglePeriodSummaryCore w an oracle clockNow anchor
      periodType force isManual st = .inr p) :
    goodAcc p.usedChildren p.idList := by
  unfold generateSinglePeriodSummaryCore at heq
  cases hth : theoreticalRange anchor periodType with
  | none => rw [hth] at heq; exact Sum.noConfusion heq
  | some trip =>
    obtain ⟨tS, tE, key⟩ := trip
    rw [hth] at heq
    dsimp only at heq
    split at heq
    · exact Sum.noConfusion heq
    · split at heq
      · exact Sum.noConfusion heq
      · exact runLowerCore_good an oracle key periodType
          (getLowerLevelPeriodType periodType) _ _ force isManual st p heq

/-- Elements of the segment id fold are raw split pieces of some queried
hour child (executor.go:1595-1605). -/
theorem seg_ids_fold_mem (y : Str) :
    ∀ (hs : List PeriodSummaryR) (acc : List Str),
      y ∈ hs.foldl
        (fun l s =>
          if s.screenshots ≠ [] then l ++ splitOnChar ',' s.screenshots
          else l) acc →
      y ∈ acc ∨ ∃ c ∈ hs, y ∈ splitOnChar ',' c.screenshots := by
  intro hs
  induction hs with
  | nil => intro acc h; exact Or.inl h
  | cons s ss ih =>
    intro acc h
    simp only [List.foldl_cons] at h
    rcases ih _ h with hy | ⟨c, hc, hm⟩
    · by_cases hscr : s.screenshots ≠ []
      · rw [if_pos hscr] at hy
        rcases List.mem_append.mp hy with hy | hy
        · exact Or.inl hy
        · exact Or.inr ⟨s, List.mem_cons_self s ss, hy⟩
      · rw [if_neg hscr] at hy
        exact Or.inl hy
    · exact Or.inr ⟨c, List.mem_cons_of_mem s hc, hm⟩

/-- An id token parsed back from the joined segment id list traces to
the parsed id set of one of the hour children. -/
theorem seg_ids_trace (hs : List PeriodSummaryR) (idv : Str)
    (h : idv ∈ idsOf (joinChar ','
      (hs.foldl (fun l s =>
        if s.screenshots ≠ [] then l ++ splitOnChar ',' s.screenshots
        else l) []))) :
    ∃ c ∈ hs, idv ∈ idsOf c.screenshots := by
  obtain ⟨y, hy, hidy⟩ := (mem_idsOf_join idv _).mp h
  rcases seg_ids_fold_mem y hs [] hy with hy0 | ⟨c, hc, hpc⟩
  · exact absurd hy0 (List.not_mem_nil y)
  · have hnc : ',' ∉ y := mem_splitOnChar_not_sep ',' c.screenshots y hpc
    obtain ⟨t, ht, rfl, hne⟩ := (mem_idsOf_iff idv y).mp hidy
    rw [splitOnChar_no_sep ',' y hnc] at ht
    obtain rfl := (List.mem_singleton.mp ht).symm
    exact ⟨c, hc, (mem_idsOf_iff _ _).mpr ⟨y, hpc, rfl, hne⟩⟩

/-- One segment step preserves traceability of every saved record's ids
into the collected hour children. -/
theorem processSegment_inv (an : AnalyzerM) (w : WorkHoursConfig)
    (force : Bool)
    (acc : Store × List PeriodSummaryR × List PeriodSummaryR ×
      List Str × List Str × Nat) (seg : Int × Int × Str)
    (h : ∀ r ∈ acc.2.1, ∀ idv ∈ idsOf r.screenshots,
      ∃ c ∈ acc.2.2.1, idv ∈ idsOf c.screenshots) :
    ∀ r ∈ (processSegment an w force acc seg).2.1,
      ∀ idv ∈ idsOf r.screenshots,
        ∃ c ∈ (processSegment an w force acc seg).2.2.1,
          idv ∈ idsOf c.screenshots := by
  obtain ⟨st, saved, used, writes, deletes, calls⟩ := acc
  obtain ⟨segStart, segEnd, segKey⟩ := seg
  unfold processSegment
  dsimp only
  split
  · split
    · exact h
    · dsimp only
      intro r hr idv hidv
      rcases List.mem_append.mp hr with hr | hr
      · obtain ⟨c, hc, hm⟩ := h r hr idv hidv
        exact ⟨c, List.mem_append_left _ hc, hm⟩
      · obtain rfl := List.mem_singleton.mp hr
        obtain ⟨c, hc, hm⟩ := seg_ids_trace _ idv hidv
        exact ⟨c, List.mem_append_right _ hc, hm⟩
  · exact h

/-- The segment fold preserves the traceability invariant. -/
theorem foldl_processSegment_inv (an : AnalyzerM) (w : WorkHoursConfig)
    (force : Bool) (segs : List (Int × Int × Str)) :
    ∀ acc, (∀ r ∈ acc.2.1, ∀ idv ∈ idsOf r.screenshots,
      ∃ c ∈ acc.2.2.1, idv ∈ idsOf c.screenshots) →
    ∀ r ∈ (segs.foldl (processSegment an w force) acc).2.1,
      ∀ idv ∈ idsOf r.screenshots,
        ∃ c ∈ (segs.foldl (processSegment an w force) acc).2.2.1,
          idv ∈ idsOf c.screenshots := by
  induction segs with
  | nil => intro acc h; exact h
  | cons s ss ih =>
    intro acc h
    simp only [List.foldl_cons]
    exact ih _ (processSegment_inv an w force acc s h)

/-- The persistence tail never changes the used-children list. -/
theorem persistStep_usedChildren (order : List Str → List Str)
    (p : ProceedData) :
    (persistStep order p).usedChildren = p.usedChildren := by
  unfold persistStep
  dsimp only
  split <;> rfl

/-- C2 counterexample: a work-segment run over a store whose only
work-time hour child has an empty (hence invalid) summary still persists
that child's screenshot ids, so the persisted id set is not contained in
the union of the id sets of the valid, non-placeholder children. -/
theorem claim_C2_counterexample :
    ¬ (∀ r ∈ runC2cex.saved, ∀ idv ∈ idsOf r.screenshots,
        ∃ c ∈ runC2cex.usedChildren,
          (isInvalidSummary c.summary = false ∧
           c.summary ≠ placeholderLit) ∧
          idv ∈ idsOf c.screenshots) := by decide

/-- C2 (corrected): for a period type with a lower level, every id in a
persisted non-placeholder record traces to the parsed id set of a valid,
non-placeholder child that the run used (executor.go:582-618).  The
work-segment generator, however, collects ids from every work-time hour
child regardless of validity (executor.go:1595-1605), so for it the
containment holds only in the union over all used children. -/
theorem claim_C2_observation_containment :
    (∀ (w : WorkHoursConfig) (an : AnalyzerM) (oracle : Oracles)
       (order : List Str → List Str) (clockNow anchor : Int)
       (periodType : Str) (force isManual : Bool) (st : Store),
       getLowerLevelPeriodType periodType ≠ [] →
       (∀ l, List.Perm (order l) l) →
       ∀ r ∈ (generateSinglePeriodSummary w an oracle order clockNow
         anchor periodType force isManual st).saved,
         r.summary ≠ placeholderLit →
         ∀ idv ∈ idsOf r.screenshots,
           ∃ c ∈ (generateSinglePeriodSummary w an oracle order clockNow
             anchor periodType force isManual st).usedChildren,
             validChild c ∧ idv ∈ idsOf c.screenshots) ∧
    (∀ (an : AnalyzerM) (w : WorkHoursConfig) (dayStart : Int)
       (force : Bool) (st : Store),
       ∀ r ∈ (generateWorkSegmentSummary an w dayStart force st).saved,
         ∀ idv ∈ idsOf r.screenshots,
           ∃ c ∈ (generateWorkSegmentSummary an w dayStart force
             st).usedChildren,
             idv ∈ idsOf c.screenshots) := by
  constructor
  · intro w an oracle order clockNow anchor periodType force isManual st
      hlow horder r hr hnp idv hidv
    cases hcore : generateSinglePeriodSummaryCore w an oracle clockNow
        anchor periodType force isManual st with
    | inl e =>
      have hrun : generateSinglePeriodSummary w an oracle order clockNow
          anchor periodType force isManual st =
          earlyResult e.store e.extCalls e.usedChildren e.isErr := by
        unfold generateSinglePeriodSummary
        rw [hcore]
      rw [hrun] at hr
      exact absurd hr (List.not_mem_nil r)
    | inr p =>
      have hrun : generateSinglePeriodSummary w an oracle order clockNow
          anchor periodType force isManual st = persistStep order p := by
        unfold generateSinglePeriodSummary
        rw [hcore]
      rw [hrun] at hr ⊢
      rw [persistStep_usedChildren]
      have hg := core_inr_good w an oracle clockNow anchor periodType
        force isManual st p hlow hcore
      by_cases hv : hasValidContent
          ⟨p.periodKey, p.periodType, p.startTime, p.endTime,
           joinChar ',' (order p.idList), p.summaryText,
           p.analysisText⟩ = true
      · have hsaved : (persistStep order p).saved =
            [⟨p.periodKey, p.periodType, p.startTime, p.endTime,
              joinChar ',' (order p.idList), p.summaryText,
              p.analysisText⟩] := by
          unfold persistStep
          dsimp only
          rw [hv]
          rfl
        rw [hsaved] at hr
        obtain rfl := List.mem_singleton.mp hr
        obtain ⟨y, hy, hidy⟩ := (mem_idsOf_join idv _).mp hidv
        have hyl : y ∈ p.idList := ((horder p.idList).mem_iff).mp hy
        obtain ⟨⟨htr, hne, hnc⟩, c, hc, hvc, hm⟩ := hg y hyl
        rw [idsOf_single y htr hne hnc] at hidy
        obtain rfl := List.mem_singleton.mp hidy
        exact ⟨c, hc, hvc, hm⟩
      · have hsaved : (persistStep order p).saved =
            [⟨p.periodKey, p.periodType, p.startTime, p.endTime, [],
              placeholderLit, []⟩] := by
          unfold persistStep
          dsimp only
          rw [Bool.not_eq_true] at hv
          rw [hv]
          rfl
        rw [hsaved] at hr
        obtain rfl := List.mem_singleton.mp hr
        exact absurd rfl hnp
  · intro an w dayStart force st r hr idv hidv
    unfold generateWorkSegmentSummary at hr ⊢
    dsimp only at hr ⊢
    exact foldl_processSegment_inv an w force _ _
      (fun r' hr' => absurd hr' (List.not_mem_nil r')) r hr idv hidv

/-- Witness for C2: in the concrete hour run over the two valid
fifteen-minute children, the persisted id `a` traces to a valid child. -/
theorem claim_C2_observation_containment_witness :
    ∃ c ∈ (generateSinglePeriodSummary wAll anDet oracleId id
        (mkDate 2025 11 21 10 0 0) (mkDate 2025 11 21 10 0 0)
        (lit "hour") false true storeC1).usedChildren,
      validChild c ∧ lit "a" ∈ idsOf c.screenshots :=
  claim_C2_observation_containment.1 wAll anDet oracleId id
    (mkDate 2025 11 21 10 0 0) (mkDate 2025 11 21 10 0 0) (lit "hour")
    false true storeC1 (by decide) (fun l => List.Perm.refl l)
    ⟨lit "2025-11-21-10", lit "hour", 1763719200, 1763722799, lit "a,b",
     lit "完成了项目代码的开发与测试", []⟩ (by decide) (by decide)
    (lit "a") (by decide)

/-! ## Claim C8: classifier boundary -/

/-- `containsStr` for a nonempty pattern is the scanning helper. -/
theorem containsStr_eq_aux (s pat : Str) (h : pat ≠ []) :
    containsStr s pat = containsAux s pat := by
  unfold containsStr
  rw [if_neg h]

/-- Scanning skips a prefix free of the pattern head. -/
theorem containsAux_append_skip (h0 : Char) (t : Str) :
    ∀ (p s : Str), (∀ c ∈ p, c ≠ h0) →
      containsAux (p ++ s) (h0 :: t) = containsAux s (h0 :: t) := by
  intro p
  induction p with
  | nil => intro s _; rfl
  | cons x xs ih =>
    intro s hp
    have hx : x ≠ h0 := hp x (List.mem_cons_self x xs)
    have hpre : List.isPrefixOf (h0 :: t) (x :: (xs ++ s)) = false := by
      simp only [List.isPrefixOf, Bool.and_eq_false_iff]
      left
      exact beq_eq_false_iff_ne.mpr fun he => hx he.symm
    show (List.isPrefixOf (h0 :: t) (x :: (xs ++ s)) ||
      containsAux (xs ++ s) (h0 :: t)) = containsAux s (h0 :: t)
    rw [hpre, Bool.false_or]
    exact ih s fun c hc => hp c (List.mem_cons_of_mem x hc)

/-- Wrapper of the scan-skip lemma for an unstructured pattern. -/
theorem containsAux_append_eq (p s pat : Str) (hne : pat ≠ [])
    (hp : ∀ c ∈ p, c ≠ pat.headD ' ') :
    containsAux (p ++ s) pat = containsAux s pat := by
  obtain ⟨h0, t, rfl⟩ := List.exists_cons_of_ne_nil hne
  exact containsAux_append_skip h0 t p s hp

/-- A string free of the pattern head does not contain the pattern. -/
theorem containsAux_all_ne (p pat : Str) (hne : pat ≠ [])
    (hp : ∀ c ∈ p, c ≠ pat.headD ' ') : containsAux p pat = false := by
  have h := containsAux_append_eq p [] pat hne hp
  rw [List.append_nil] at h
  rw [h]
  cases pat with
  | nil => exact absurd rfl hne
  | cons h0 t => rfl

/-- Replacement is the identity when the pattern does not occur. -/
theorem replaceAllAux_not_contains (pat rep : Str) :
    ∀ (s : Str) (fuel : Nat), containsAux s pat = false →
      replaceAllAux fuel s pat rep = s := by
  intro s
  induction s with
  | nil =>
    intro fuel _
    cases fuel <;> rfl
  | cons x xs ih =>
    intro fuel h
    have h2 : List.isPrefixOf pat (x :: xs) = false ∧
        containsAux xs pat = false := by
      have : (List.isPrefixOf pat (x :: xs) ||
          containsAux xs pat) = false := h
      exact Bool.or_eq_false_iff.mp this
    cases fuel with
    | zero => rfl
    | succ fuel =>
      show (if List.isPrefixOf pat (x :: xs) = true then _ else
        x :: replaceAllAux fuel xs pat rep) = x :: xs
      rw [h2.1]
      simp only [Bool.false_eq_true, if_false]
      rw [ih fuel h2.2]

/-- `replaceAll` is the identity when the pattern does not occur. -/
theorem replaceAll_not_contains (s pat rep : Str)
    (h : containsStr s pat = false) : replaceAll s pat rep = s := by
  have hne : pat ≠ [] := by
    intro he
    rw [he] at h
    simp [containsStr] at h
  unfold replaceAll
  rw [if_neg hne]
  rw [containsStr_eq_aux s pat hne] at h
  exact replaceAllAux_not_contains pat rep s _ h

/-- The replacement scan walks over a prefix free of the pattern
head. -/
theorem replaceAllAux_append_skip (h0 : Char) (t rep : Str) :
    ∀ (p s : Str) (fuel : Nat), (∀ c ∈ p, c ≠ h0) →
      replaceAllAux (p.length + fuel) (p ++ s) (h0 :: t) rep =
        p ++ replaceAllAux fuel s (h0 :: t) rep := by
  intro p
  induction p with
  | nil => intro s fuel _; simp
  | cons x xs ih =>
    intro s fuel hp
    have hx : x ≠ h0 := hp x (List.mem_cons_self x xs)
    have hpre : List.isPrefixOf (h0 :: t) (x :: (xs ++ s)) = false := by
      simp only [List.isPrefixOf, Bool.and_eq_false_iff]
      left
      exact beq_eq_false_iff_ne.mpr fun he => hx he.symm
    show replaceAllAux (xs.length + 1 + fuel) (x :: (xs ++ s))
        (h0 :: t) rep = x :: (xs ++ replaceAllAux fuel s (h0 :: t) rep)
    rw [show xs.length + 1 + fuel = (xs.length + fuel) + 1 from by omega]
    show (if List.isPrefixOf (h0 :: t) (x :: (xs ++ s)) = true then _
      else x :: replaceAllAux (xs.length + fuel) (xs ++ s)
        (h0 :: t) rep) = _
    rw [hpre]
    simp only [Bool.false_eq_true, if_false]
    rw [ih s fuel fun c hc => hp c (List.mem_cons_of_mem x hc)]

/-- `replaceAll` leaves a prefix free of the pattern head intact. -/
theorem replaceAll_append_skip (p s pat rep : Str) (hne : pat ≠ [])
    (hp : ∀ c ∈ p, c ≠ pat.headD ' ') :
    replaceAll (p ++ s) pat rep =
      p ++ replaceAllAux (s.length + 1) s pat rep := by
  obtain ⟨h0, t, rfl⟩ := List.exists_cons_of_ne_nil hne
  unfold replaceAll
  rw [if_neg hne, List.length_append, Nat.add_assoc]
  exact replaceAllAux_append_skip h0 t rep p s (s.length + 1) hp

/-- Characters of a word over the allowed alphabet differ from any
character outside it. -/
theorem allowed_ne (p : Str) (hp : ∀ c ∈ p, c ∈ asciiWordChars)
    (x : Char) (hx : x ∉ asciiWordChars) : ∀ c ∈ p, c ≠ x :=
  fun c hc he => hx (he ▸ hp c hc)

/-- Lowercasing fixes a string of already-fixed characters. -/
theorem toLowerStr_eq_self_of (s : Str)
    (h : ∀ c ∈ s, Char.toLower c = c) : toLowerStr s = s := by
  unfold toLowerStr
  exact (List.map_congr_left h).trans (List.map_id s)

/-- `dropWhile` is the identity when no element satisfies the
predicate. -/
theorem dropWhile_eq_self_of_none {p : Char → Bool} (s : Str)
    (h : ∀ c ∈ s, p c = false) : s.dropWhile p = s := by
  cases s with
  | nil => rfl
  | cons x xs =>
    rw [List.dropWhile_cons, h x (List.mem_cons_self x xs)]
    simp

/-- Trimming a string without space characters is the identity. -/
theorem trimSpace_eq_self_of_no_space (s : Str)
    (h : ∀ c ∈ s, isSpaceChar c = false) : trimSpace s = s := by
  unfold trimSpace
  rw [dropWhile_eq_self_of_none s h,
    dropWhile_eq_self_of_none s.reverse
      (fun c hc => h c (List.mem_reverse.mp hc)),
    List.reverse_reverse]

/-- The UTF-8 byte length dominates the character count. -/
theorem length_le_byteLen (s : Str) : s.length ≤ byteLen s := by
  induction s with
  | nil => simp [byteLen]
  | cons x xs ih =>
    have hpos := Char.utf8Size_pos x
    show xs.length + 1 ≤ x.utf8Size + byteLen xs
    omega

/-- C8: on the exact input `没有检测到有效工作活动` alone, the
invalid-summary classifier returns true and the has-valid-work-activity
classifier returns false; and prefixing the phrase with 300 or more
word characters (lowercase ASCII letters and digits) of description text
makes the invalid-summary classifier return false. -/
theorem claim_C8_classifier_boundary :
    isInvalidSummary noWorkPhrase = true ∧
    hasValidWorkActivity noWorkPhrase = false ∧
    ∀ p : Str, (∀ c ∈ p, c ∈ asciiWordChars) → 300 ≤ p.length →
      isInvalidSummary (p ++ noWorkPhrase) = false := by
  refine ⟨by decide, by decide, ?_⟩
  intro p hp h300
  have hlen : (p ++ noWorkPhrase).length = p.length + 11 := by
    rw [List.length_append, show noWorkPhrase.length = 11 from by decide]
  have hne : p ++ noWorkPhrase ≠ [] := by
    intro he
    have h := congrArg List.length he
    rw [hlen] at h
    simp at h
  have hneph : p ++ noWorkPhrase ≠ placeholderLit := by
    intro he
    have h := congrArg List.length he
    rw [hlen, show placeholderLit.length = 32 from by decide] at h
    omega
  have htl : ∀ c ∈ p ++ noWorkPhrase, Char.toLower c = c := by
    intro c hc
    rcases List.mem_append.mp hc with hc | hc
    · exact (by decide : ∀ c ∈ asciiWordChars, Char.toLower c = c) c
        (hp c hc)
    · exact (by decide : ∀ c ∈ noWorkPhrase, Char.toLower c = c) c hc
  have hlow : toLowerStr (p ++ noWorkPhrase) = p ++ noWorkPhrase :=
    toLowerStr_eq_self_of _ htl
  have hspace : ∀ c ∈ p ++ noWorkPhrase, isSpaceChar c = false := by
    intro c hc
    rcases List.mem_append.mp hc with hc | hc
    · exact (by decide : ∀ c ∈ asciiWordChars, isSpaceChar c = false) c
        (hp c hc)
    · exact (by decide : ∀ c ∈ noWorkPhrase, isSpaceChar c = false) c hc
  have hcs : ∀ pat : Str, pat ≠ [] → pat.headD ' ' ∉ asciiWordChars →
      containsStr (p ++ noWorkPhrase) pat =
        containsAux noWorkPhrase pat := by
    intro pat hne0 hh
    rw [containsStr_eq_aux _ _ hne0,
      containsAux_append_eq p noWorkPhrase pat hne0
        (allowed_ne p hp _ hh)]
  have hra : ∀ pat rep : Str, pat ≠ [] →
      pat.headD ' ' ∉ asciiWordChars →
      containsAux noWorkPhrase pat = false →
      replaceAll (p ++ noWorkPhrase) pat rep = p ++ noWorkPhrase := by
    intro pat rep hne0 hh hph
    apply replaceAll_not_contains
    rw [hcs pat hne0 hh, hph]
  have hrp : ∀ pat rep : Str, pat ≠ [] →
      pat.headD ' ' ∉ asciiWordChars → replaceAll p pat rep = p := by
    intro pat rep hne0 hh
    apply replaceAll_not_contains
    rw [containsStr_eq_aux _ _ hne0]
    exact containsAux_all_ne p pat hne0 (allowed_ne p hp _ hh)
  have htrim : trimSpace (p ++ noWorkPhrase) = p ++ noWorkPhrase :=
    trimSpace_eq_self_of_no_space _ hspace
  have htrimp : trimSpace p = p :=
    trimSpace_eq_self_of_no_space _ fun c hc =>
      hspace c (List.mem_append_left _ hc)
  have hremove : replaceAll (p ++ noWorkPhrase)
      (lit "没有检测到有效工作活动") [] = p := by
    rw [replaceAll_append_skip p noWorkPhrase
      (lit "没有检测到有效工作活动") [] (by decide)
      (allowed_ne p hp _ (by decide))]
    rw [show replaceAllAux (noWorkPhrase.length + 1) noWorkPhrase
      (lit "没有检测到有效工作活动") [] = [] from by decide]
    exact List.append_nil p
  have hbig : decide (byteLen p < 50) = false := by
    apply decide_eq_false
    have := length_le_byteLen p
    omega
  unfold isInvalidSummary
  rw [if_neg hne, if_neg hneph]
  dsimp only
  rw [List.any_eq_false]
  intro pat hpat
  fin_cases hpat
  · rw [hlow, show toLowerStr
        (lit "该时间段内没有检测到有效工作活动（所有截图均为桌面或锁屏状态）") =
        lit "该时间段内没有检测到有效工作活动（所有截图均为桌面或锁屏状态）"
        from by decide,
      hcs _ (by decide) (by decide),
      show containsAux noWorkPhrase
        (lit "该时间段内没有检测到有效工作活动（所有截图均为桌面或锁屏状态）") =
        false from by decide]
    simp
  · rw [hlow, show toLowerStr (lit "该时间段内没有检测到有效工作活动") =
        lit "该时间段内没有检测到有效工作活动" from by decide,
      hcs _ (by decide) (by decide),
      show containsAux noWorkPhrase (lit "该时间段内没有检测到有效工作活动") =
        false from by decide]
    simp
  · rw [hlow, show toLowerStr
        (lit "没有检测到有效工作活动（所有截图均为桌面或锁屏状态）") =
        lit "没有检测到有效工作活动（所有截图均为桌面或锁屏状态）"
        from by decide,
      hcs _ (by decide) (by decide),
      show containsAux noWorkPhrase
        (lit "没有检测到有效工作活动（所有截图均为桌面或锁屏状态）") =
        false from by decide]
    simp
  · rw [hlow, show toLowerStr (lit "没有检测到有效工作活动") =
        lit "没有检测到有效工作活动" from by decide,
      hcs _ (by decide) (by decide),
      show containsAux noWorkPhrase (lit "没有检测到有效工作活动") = true
        from by decide,
      if_pos rfl]
    rw [hra (lit "\n") (lit " ") (by decide) (by decide) (by decide),
      hra (lit "\r") (lit " ") (by decide) (by decide) (by decide),
      hra (lit "  ") (lit " ") (by decide) (by decide) (by decide),
      hra (lit "【") [] (by decide) (by decide) (by decide),
      hra (lit "】") [] (by decide) (by decide) (by decide),
      hra (lit "*") [] (by decide) (by decide) (by decide),
      hra (lit "#") [] (by decide) (by decide) (by decide),
      htrim, hremove,
      hrp (lit "（") [] (by decide) (by decide),
      hrp (lit "）") [] (by decide) (by decide),
      hrp (lit "(") [] (by decide) (by decide),
      hrp (lit ")") [] (by decide) (by decide),
      hrp (lit "。") [] (by decide) (by decide),
      hrp (lit ".") [] (by decide) (by decide),
      hrp (lit "，") [] (by decide) (by decide),
      hrp (lit ",") [] (by decide) (by decide),
      hrp (lit " ") [] (by decide) (by decide),
      htrimp, hbig]
    simp
  · rw [hlow, show toLowerStr (lit "没有有效工作活动") =
        lit "没有有效工作活动" from by decide,
      hcs _ (by decide) (by decide),
      show containsAux noWorkPhrase (lit "没有有效工作活动") = false
        from by decide]
    simp
  · rw [hlow, show toLowerStr (lit "未检测到新的有效工作活动") =
        lit "未检测到新的有效工作活动" from by decide,
      hcs _ (by decide) (by decide),
      show containsAux noWorkPhrase (lit "未检测到新的有效工作活动") = false
        from by decide]
    simp
  · rw [hlow, show toLowerStr (lit "未检测到有效工作活动") =
        lit "未检测到有效工作活动" from by decide,
      hcs _ (by decide) (by decide),
      show containsAux noWorkPhrase (lit "未检测到有效工作活动") = false
        from by decide]
    simp

/-- C8 witness: 300 letters of description text in front of the phrase
flip the invalid-summary classifier to false. -/
theorem claim_C8_classifier_boundary_witness :
    isInvalidSummary (List.replicate 300 'a' ++ noWorkPhrase) = false :=
  claim_C8_classifier_boundary.2.2 (List.replicate 300 'a')
    (fun c hc => by rw [List.eq_of_mem_replicate hc]; decide)
    (by rw [List.length_replicate])
